import Mathlib

/-!
# Admission control of the multithread task scheduler

A shallow embedding of `server.c` (and of the framing code of `client.c`).

* Times are `double` in the source. A finite `double` is the rational it stands for.
  The analysis is given twice: with the recurrence in exact arithmetic (termination,
  the task table) and with every operation rounded as the program does (the verdict
  of the analysis, names ending in `_f64`).
* The global `task_list[MAX_THREADS]` is the list of its slots; the opaque
  `thread_id` field is not represented.
* A `while` loop takes a `fuel` argument, the largest number of times its body
  may run; `none` means that the loop needed more, or that the C program has
  left defined behaviour (an array written past its end).
-/

namespace Scheduler

/-! ## Data model (server.c, lines 14-48) -/

/-- Number of slots of the task table. -/
def MAX_THREADS : Nat := 10

/-- Capacity of the catalog read from tasks.config. -/
def MAX_TASKS : Nat := 50

/-- Catalog entry: name, cpu requirement C, period T and deadline D. -/
structure TaskConfig where
  task_name : String
  execution_time : ℚ
  period : ℚ
  deadline : ℚ
  deriving DecidableEq

/-- Slot of the task table: name, `active` flag (a C `int`) and the copied parameters. -/
structure Task where
  task_name : String
  active : Int
  config : TaskConfig
  deriving DecidableEq

/-- The zero-initialised slot of `Task task_list[MAX_THREADS] = {0}`. -/
def zero_task : Task :=
  { task_name := "", active := 0,
    config := { task_name := "", execution_time := 0, period := 0, deadline := 0 } }

/-- The task table at start-up: `MAX_THREADS` zeroed slots. -/
def initial_task_list : List Task := List.replicate MAX_THREADS zero_task

/-! ## Response time analysis (server.c, lines 134-186) -/

/-- Comparison function handed to `qsort`: sign of the difference of the deadlines. -/
def compare_tasks (a b : TaskConfig) : Int :=
  (if a.deadline > b.deadline then 1 else 0) - (if a.deadline < b.deadline then 1 else 0)

/-- The libc `qsort`, as an insertion sort: the result is a permutation of the
input in which `cmp a b ≤ 0` holds along the list. The libc leaves the order of
entries that compare equal open; here they keep their order. -/
def qsort {α : Type} (cmp : α → α → Int) (l : List α) : List α :=
  l.insertionSort (fun a b => cmp a b ≤ 0)

/-- Lines 148-154: the parameters of the slots whose `active` flag is non-zero. -/
def active_configs (task_list : List Task) : List TaskConfig :=
  (task_list.filter (fun t => t.active ≠ 0)).map (fun t => t.config)

/-- Lines 169-174: `Ri = C; for (j < i) Ri += ceil(prev_Ri / T_j) * C_j`, where `hp`
holds `active_tasks[0 .. i-1]`, in exact arithmetic (`interference_f64` rounds). -/
def interference (hp : List TaskConfig) (C prev_Ri : ℚ) : ℚ :=
  hp.foldl (fun Ri tj => Ri + (⌈prev_Ri / tj.period⌉ : ℚ) * tj.execution_time) C

/-- Lines 166-182: the `while (Ri != prev_Ri)` loop of one task. `some true`: the loop
ended with `Ri == prev_Ri`; `some false`: `Ri > deadline`, the function returns 0;
`none`: more than `fuel` iterations. -/
def rta_while (task : TaskConfig) (hp : List TaskConfig) : Nat → ℚ → ℚ → Option Bool
  | 0, Ri, prev_Ri => if Ri = prev_Ri then some true else none
  | fuel + 1, Ri, prev_Ri =>
    if Ri = prev_Ri then some true
    else
      let next_Ri := interference hp task.execution_time Ri
      if next_Ri > task.deadline then some false
      else rta_while task hp fuel next_Ri Ri

/-- Lines 160-185: the `for (i < active_count)` loop; `hp` holds the entries before
index `i`, the second list the entries from index `i` on. -/
def rta_for (fuel : Nat) : List TaskConfig → List TaskConfig → Option Int
  | _, [] => some 1
  | hp, task :: rest =>
    match rta_while task hp fuel task.execution_time 0 with
    | none => none
    | some false => some 0
    | some true => rta_for fuel (hp ++ [task]) rest

/-- Function `response_time_analysis`. The local array `active_tasks[MAX_THREADS]`
has no room for the candidate when every slot is active: that write is outside
the array and the result is `none`. (`activate_task` calls the function only after
its capacity check.) -/
def response_time_analysis (fuel : Nat) (task_list : List Task) (new_task : TaskConfig) :
    Option Int :=
  let active_tasks := active_configs task_list
  if MAX_THREADS ≤ active_tasks.length then none
  else rta_for fuel [] (qsort compare_tasks (active_tasks ++ [new_task]))

/-! ## Activation and deactivation (server.c, lines 189-251) -/

/-- Lines 192-199: first catalog entry whose name equals `task_name`. -/
def find_config (predefined_tasks : List TaskConfig) (task_name : String) :
    Option TaskConfig :=
  predefined_tasks.find? (fun c => c.task_name = task_name)

/-- Lines 204-212: number of slots with `active == 1`. -/
def count_active (task_list : List Task) : Nat :=
  task_list.countP (fun t => t.active = 1)

/-- Lines 222-233: fill the first slot with `active == 0`; `none` when the loop ends
without finding one. -/
def insert_task (task_name : String) (config : TaskConfig) : List Task → Option (List Task)
  | [] => none
  | t :: ts =>
    if t.active = 0 then
      some ({ task_name := task_name, active := 1, config := config } :: ts)
    else (insert_task task_name config ts).map (fun ts1 => t :: ts1)

/-- Function `activate_task`: the returned status and the task table afterwards.
A status `none` is the end of the function reached without a `return`. -/
def activate_task (fuel : Nat) (predefined_tasks : List TaskConfig) (task_list : List Task)
    (task_name : String) : Option (Option Int × List Task) :=
  match find_config predefined_tasks task_name with
  | none => some (some (-2), task_list)
  | some config =>
    if count_active task_list = MAX_THREADS then some (some (-3), task_list)
    else
      match response_time_analysis fuel task_list config with
      | none => none
      | some r =>
        if r = 0 then some (some (-1), task_list)
        else
          match insert_task task_name config task_list with
          | some task_list1 => some (some 1, task_list1)
          | none => some (none, task_list)

/-- Function `deactivate_task`: every slot with `active == 1` and the given name gets
`active = 0`. -/
def deactivate_task (task_name : String) (task_list : List Task) : List Task :=
  task_list.map (fun t =>
    if t.active = 1 ∧ t.task_name = task_name then { t with active := 0 } else t)


/-! ## The recurrence of the spec (section 4.C, step 4) -/

/-- Right-hand side of the recurrence of the spec: `C + Σ_j ⌈R / T_j⌉ · C_j`, the sum
taken over the higher-priority tasks `hp`. -/
def rta_rhs (hp : List TaskConfig) (C R : ℚ) : ℚ :=
  C + (hp.map (fun tj => (⌈R / tj.period⌉ : ℚ) * tj.execution_time)).sum

/-- Iterates of the spec: `R⁽⁰⁾ = C`, `R⁽ⁿ⁺¹⁾ = C + Σ_j ⌈R⁽ⁿ⁾ / T_j⌉ · C_j`. -/
def rta_iterate (hp : List TaskConfig) (C : ℚ) : Nat → ℚ
  | 0 => C
  | n + 1 => rta_rhs hp C (rta_iterate hp C n)

/-- Total number of releases `Σ_j ⌈R / T_j⌉` counted by the recurrence. -/
def release_count (hp : List TaskConfig) (R : ℚ) : Int :=
  (hp.map (fun tj => ⌈R / tj.period⌉)).sum

/-- All three parameters of a task are positive. -/
def TaskConfig.Positive (c : TaskConfig) : Prop :=
  0 < c.execution_time ∧ 0 < c.period ∧ 0 < c.deadline

instance (c : TaskConfig) : Decidable c.Positive := by
  unfold TaskConfig.Positive
  infer_instance

/-! ## Sequential runs of commands -/

/-- One request of a client: `1 <name>` or `0 <name>`. -/
inductive Command where
  | activate (task_name : String)
  | deactivate (task_name : String)

/-- Sequential run of a list of commands: the status of each (`some 0` stands for the
`void` deactivation) and the final task table. -/
def run (fuel : Nat) (predefined_tasks : List TaskConfig) :
    List Task → List Command → Option (List (Option Int) × List Task)
  | task_list, [] => some ([], task_list)
  | task_list, Command.activate name :: cmds =>
    match activate_task fuel predefined_tasks task_list name with
    | none => none
    | some (status, task_list1) =>
      (run fuel predefined_tasks task_list1 cmds).map (fun r => (status :: r.1, r.2))
  | task_list, Command.deactivate name :: cmds =>
    (run fuel predefined_tasks (deactivate_task name task_list) cmds).map
      (fun r => (some 0 :: r.1, r.2))

/-- Catalog of scenario S2: `A 400 500 500`, `B 400 500 500`. -/
def catalog_S2 : List TaskConfig := [⟨"A", 400, 500, 500⟩, ⟨"B", 400, 500, 500⟩]

/-- Task table of scenario S2 after `1 A`. -/
def table_S2 : List Task :=
  ⟨"A", 1, ⟨"A", 400, 500, 500⟩⟩ :: List.replicate 9 zero_task

/-- Task tables that sequential `activate_task` / `deactivate_task` calls produce from the
zero-initialised table (each activation with any iteration allowance). -/
inductive Reachable (predefined_tasks : List TaskConfig) : List Task → Prop
  | init : Reachable predefined_tasks initial_task_list
  | activate {task_list task_list1 : List Task} (fuel : Nat) (task_name : String)
      (status : Option Int) :
      Reachable predefined_tasks task_list →
      activate_task fuel predefined_tasks task_list task_name = some (status, task_list1) →
      Reachable predefined_tasks task_list1
  | deactivate {task_list : List Task} (task_name : String) :
      Reachable predefined_tasks task_list →
      Reachable predefined_tasks (deactivate_task task_name task_list)

/-- Catalog of scenario S5: `Q 50 1000 1000`. -/
def catalog_S5 : List TaskConfig := [⟨"Q", 50, 1000, 1000⟩]

/-- Task table of scenario S5 after ten activations of Q. -/
def table_S5 : List Task := List.replicate 10 ⟨"Q", 1, ⟨"Q", 50, 1000, 1000⟩⟩

/-- Catalog of scenario S3: `Z 100 1000 1000`. -/
def catalog_S3 : List TaskConfig := [⟨"Z", 100, 1000, 1000⟩]

/-! ## Command parsing and replies (server.c, lines 283-313) -/

/-- The C `isspace` of the "C" locale: space, `\t`, `\n`, `\v`, `\f`, `\r`. -/
def isspace (c : Char) : Bool :=
  c = ' ' || c = '\t' || c = '\n' || c = Char.ofNat 11 || c = Char.ofNat 12 || c = '\r'

/-- The C `isdigit`. -/
def isdigit (c : Char) : Bool := '0' ≤ c && c ≤ '9'

/-- Value of a run of decimal digits. -/
def digits_value (ds : List Char) : Nat :=
  ds.foldl (fun v d => 10 * v + (d.toNat - '0'.toNat)) 0

/-- Outcome of `sscanf(command, "%d %s", &action, task_name)`. -/
inductive ScanResult where
  /-- Both conversions succeeded: `sscanf` returns 2. -/
  | assigned (action : Int) (task_name : String)
  /-- A conversion failed or the input ended: `sscanf` returns less than 2. -/
  | mismatch
  /-- Outside defined behaviour: the number does not fit an `int`, or the name does not
  fit `char task_name[20]`. -/
  | undefined
  deriving DecidableEq

/-- The optional sign read by `%d`: whether it is a minus, and the input after it. -/
def skip_sign (s : List Char) : Bool × List Char :=
  match s with
  | '-' :: r => (true, r)
  | '+' :: r => (false, r)
  | _ => (false, s)

/-- The conversion `%d`: skip white space, read an optional sign and the longest run of
digits. The result is the number and the input after it; `none`: no digit was found. -/
def scan_int (s : List Char) : Option (Int × List Char) :=
  let signed := skip_sign (s.dropWhile isspace)
  let ds := signed.2.takeWhile isdigit
  if ds = [] then none
  else some (if signed.1 then -(digits_value ds : Int) else (digits_value ds : Int),
    signed.2.dropWhile isdigit)

/-- The conversion `%s` (after the blank of the format): skip white space and read the
longest run of non-blank characters. -/
def scan_word (s : List Char) : List Char :=
  (s.dropWhile isspace).takeWhile (fun c => !isspace c)

/-- Line 286, `sscanf(command, "%d %s", &action, task_name)`. Whatever follows the
name is not looked at. -/
def sscanf_d_s (command : List Char) : ScanResult :=
  match scan_int command with
  | none => ScanResult.mismatch
  | some (v, rest) =>
    if v < -2147483648 ∨ 2147483647 < v then ScanResult.undefined
    else if scan_word rest = [] then ScanResult.mismatch
    else if 19 < (scan_word rest).length then ScanResult.undefined
    else ScanResult.assigned v (String.mk (scan_word rest))

/-- The C string held by a buffer: the characters before the first NUL. -/
def c_string (buf : String) : List Char :=
  buf.toList.takeWhile (fun c => c ≠ Char.ofNat 0)

/-- The C `snprintf(response, size, ...)` of an already formatted text: at most
`size - 1` characters are stored. -/
def snprintf (size : Nat) (text : String) : String :=
  String.mk (text.toList.take (size - 1))

/-- Lines 283-313, one command of `handleConnection`: the task table afterwards and the
content of `response[256]`. The argument `response` is what the buffer held before:
no branch writes it when `status` is none of 1, -1, -2, -3. `none`: outside defined
behaviour (see `ScanResult.undefined`; `activate_task` ended without a value) or too
little `fuel`. -/
def handle_command (fuel : Nat) (predefined_tasks : List TaskConfig) (task_list : List Task)
    (response : String) (command : String) : Option (List Task × String) :=
  match sscanf_d_s (c_string command) with
  | ScanResult.undefined => none
  | ScanResult.mismatch => some (task_list, snprintf 256 "[SERVER]: Invalid command format")
  | ScanResult.assigned action task_name =>
    if action = 1 then
      match activate_task fuel predefined_tasks task_list task_name with
      | none => none
      | some (none, _) => none
      | some (some status, task_list1) =>
        if status = 1 then
          some (task_list1, snprintf 256 ("[SERVER]: Task " ++ task_name ++ " activated"))
        else if status = -1 then
          some (task_list1, snprintf 256
            ("[SERVER]: Task " ++ task_name ++ " cannot be scheduled (System overloaded)"))
        else if status = -2 then
          some (task_list1, snprintf 256 ("[SERVER]: Task " ++ task_name ++ " not found"))
        else if status = -3 then
          some (task_list1, snprintf 256
            ("[SERVER]: Maximum tasks reached, cannot activate " ++ task_name))
        else some (task_list1, response)
    else if action = 0 then
      some (deactivate_task task_name task_list,
        snprintf 256 ("[SERVER]: Task " ++ task_name ++ " deactivated"))
    else some (task_list, snprintf 256 "[SERVER]: Invalid action")

/-! ## Framing (server.c, lines 253-281 and 315-320; client.c, lines 25-36 and 122-151) -/

/-- Bytes of a C string, one per character. -/
def str_bytes (s : String) : List Nat := s.toList.map Char.toNat

/-- The C string made of the given bytes. -/
def bytes_str (bs : List Nat) : String := String.mk (bs.map Char.ofNat)

/-- The C `strlen`: number of bytes before the first NUL. -/
def strlen (buf : List Nat) : Nat := (buf.takeWhile (fun b => b ≠ 0)).length

/-- The four bytes in memory of `htonl(n)`, most significant first. -/
def htonl (n : Nat) : List Nat :=
  [n / 16777216 % 256, n / 65536 % 256, n / 256 % 256, n % 256]

/-- The value `ntohl` gives back from four bytes received into an `unsigned int`. -/
def ntohl (bs : List Nat) : Nat :=
  match bs with
  | [a, b, c, d] => ((a * 256 + b) * 256 + c) * 256 + d
  | _ => 0

/-- Conversion of an `unsigned int` to `int` (two's complement). -/
def to_int (n : Nat) : Int := if n < 2147483648 then (n : Int) else (n : Int) - 4294967296

/-- Function `receive` of both programs: read exactly `size` bytes from the stream, in
as many `recv` calls as it takes; `none` is the return value -1 (the stream ended).
A `size ≤ 0` reads nothing. -/
def receive (stream : List Nat) (size : Int) : Option (List Nat × List Nat) :=
  if size ≤ 0 then some ([], stream)
  else if stream.length < size.toNat then none
  else some (stream.take size.toNat, stream.drop size.toNat)

/-- The send path of both programs (server.c lines 315-320, client.c lines 122-127):
`len = strlen(buf); netLen = htonl(len); send(&netLen, 4); send(buf, len)`. -/
def send_frame (buf : List Nat) : List Nat :=
  htonl (strlen buf % 4294967296) ++ buf.take (strlen buf)

/-- The receive path of the client (client.c lines 134-151): the answer and the rest
of the stream. `none`: `receive` failed, or `len` is negative and `answer[len]` is
outside the allocated block. -/
def client_receive (stream : List Nat) : Option (List Nat × List Nat) :=
  match receive stream 4 with
  | none => none
  | some (netLen, rest) =>
    let len := to_int (ntohl netLen)
    if len < 0 then none
    else receive rest len

/-- The receive path of the server (server.c lines 275-281): the command and the rest
of the stream. `none`: `receive` failed, or `command[len]` is outside `command[50]`. -/
def server_receive (stream : List Nat) : Option (List Nat × List Nat) :=
  match receive stream 4 with
  | none => none
  | some (netLen, rest) =>
    let len := to_int (ntohl netLen)
    if len < 0 ∨ 49 < len then none
    else receive rest len

/-- One turn of the loop of `handleConnection` (lines 273-321): read a framed command,
handle it, and frame the reply. The result holds the task table, the content of
`response`, the bytes sent and the unread rest of the stream. -/
def handleConnection_turn (fuel : Nat) (predefined_tasks : List TaskConfig)
    (task_list : List Task) (response : String) (stream : List Nat) :
    Option (List Task × String × List Nat × List Nat) :=
  match server_receive stream with
  | none => none
  | some (command, rest) =>
    match handle_command fuel predefined_tasks task_list response (bytes_str command) with
    | none => none
    | some (task_list1, response1) =>
      some (task_list1, response1, send_frame (str_bytes response1), rest)

/-! ## The sleeps of `task_runner` (server.c, lines 97-99 and 117-126) -/

/-- The C conversion of a `double` to an integer type: the fraction is dropped. -/
def c_trunc (x : ℚ) : Int := if 0 ≤ x then ⌊x⌋ else ⌈x⌉

/-- The C `fmod(x, y)`: `x - n * y` with `n` the quotient `x / y` truncated. -/
def fmod (x y : ℚ) : ℚ := x - (c_trunc (x / y) : ℚ) * y

/-- Lines 97-99, the `timespec` `exec_time` built from the execution time in ms:
`(tv_sec, tv_nsec)`. -/
def exec_time_ts (execution_time : ℚ) : Int × Int :=
  (c_trunc (execution_time / 1000), c_trunc (fmod execution_time 1000 * 1000000))

/-- Lines 122-124, the `timespec` `sleep_ts` built from `sleep_time` in ms:
`(tv_sec, tv_nsec)`. -/
def sleep_ts (sleep_time : ℚ) : Int × Int :=
  (c_trunc (sleep_time / 1000),
    c_trunc ((sleep_time - (c_trunc sleep_time : ℚ)) * 1000000))

/-- Length in ms of the `nanosleep` of a `timespec`. -/
def timespec_ms (ts : Int × Int) : ℚ := (ts.1 : ℚ) * 1000 + (ts.2 : ℚ) / 1000000

/-- Lines 92-127, one turn of the loop of `task_runner` on an ideal clock, where
`nanosleep` lasts exactly its `timespec` and nothing else takes time. The state is
`(now, next_release_time)`; the turn starts (the task is released) at `now`. -/
def task_runner_turn (config : TaskConfig) (state : ℚ × ℚ) : ℚ × ℚ :=
  let end_time := state.1 + timespec_ms (exec_time_ts config.execution_time)
  let next_release_time := state.2 + config.period
  let sleep_time := next_release_time - end_time
  if sleep_time > 0 then (end_time + timespec_ms (sleep_ts sleep_time), next_release_time)
  else (end_time, next_release_time)

/-- Start times of the first `n` turns of `task_runner` on the ideal clock. -/
def release_times (config : TaskConfig) : Nat → ℚ × ℚ → List ℚ
  | 0, _ => []
  | n + 1, state => state.1 :: release_times config n (task_runner_turn config state)

/-- Shape of the commands that `sscanf(command, "%d %s", ...)` converts in full: white
space `ws`, an optional sign, a run of digits `ds` (the number), white space `ws2`
(possibly none, when the name does not begin with a digit), a run of non-blank
characters `name`, and a `rest` that is empty or begins with white space. -/
def CommandShape (command : List Char) (action : Int) (name : List Char) : Prop :=
  ∃ ws sgn ds ws2 rest : List Char,
    command = ws ++ (sgn ++ (ds ++ (ws2 ++ (name ++ rest)))) ∧
    (∀ c ∈ ws, isspace c = true) ∧ (sgn = [] ∨ sgn = ['+'] ∨ sgn = ['-']) ∧
    ds ≠ [] ∧ (∀ c ∈ ds, isdigit c = true) ∧
    (∀ c ∈ ws2, isspace c = true) ∧
    name ≠ [] ∧ (∀ c ∈ name, isspace c = false) ∧
    (ws2 = [] → ∀ c, name.head? = some c → isdigit c = false) ∧
    (∀ c, rest.head? = some c → isspace c = true) ∧
    action = if sgn = ['-'] then -(digits_value ds : Int) else (digits_value ds : Int)

/-! ## The response time analysis in `double` arithmetic

`server.c` computes lines 163-176 in `double`: every division, product and sum is
rounded to the nearest binary64 number (ties to even; no fused multiply-add), and
`ceil` is exact. A finite `double` is the rational it stands for; `none` is `+∞`. -/

/-- Round to the nearest integer, ties to the even one. -/
def round_half_even (q : ℚ) : Int :=
  if q - ⌊q⌋ < 1 / 2 then ⌊q⌋
  else if 1 / 2 < q - ⌊q⌋ then ⌊q⌋ + 1
  else if ⌊q⌋ % 2 = 0 then ⌊q⌋ else ⌊q⌋ + 1

/-- Halving `n` until it is below 2, at most `fuel` times: the number of halvings. -/
def log2_steps : Nat → Nat → Nat
  | 0, _ => 0
  | fuel + 1, n => if n < 2 then 0 else log2_steps fuel (n / 2) + 1

/-- The `k` with `2 ^ k ≤ n < 2 ^ (k + 1)`, for `n > 0`. -/
def log2_floor (n : Nat) : Nat := log2_steps n n

/-- The exponent `e` with `2 ^ e ≤ x < 2 ^ (e + 1)`, for `x > 0`. -/
def binade (x : ℚ) : Int :=
  if x < (2 : ℚ) ^ ((log2_floor x.num.natAbs : Int) - (log2_floor x.den : Int)) then
    (log2_floor x.num.natAbs : Int) - (log2_floor x.den : Int) - 1
  else (log2_floor x.num.natAbs : Int) - (log2_floor x.den : Int)

/-- Spacing of the binary64 numbers around `x`: `2 ^ (e - 52)` with `e` the exponent of
`|x|`, and `2 ^ (-1074)` in the subnormal range. -/
def f64_ulp (x : ℚ) : ℚ := (2 : ℚ) ^ (max (binade |x|) (-1022) - 52)

/-- The multiple of `f64_ulp x` nearest to `x`, ties to the even multiple: the rounding
to binary64 if the exponent range had no upper end. -/
def f64_nearest (x : ℚ) : ℚ := (round_half_even (x / f64_ulp x) : ℚ) * f64_ulp x

/-- Rounding of a real result to binary64, to nearest, ties to even. `none`: the result
is infinite (its rounded magnitude reaches `2 ^ 1024`). -/
def f64_round (x : ℚ) : Option ℚ :=
  if |f64_nearest x| < 2 ^ 1024 then some (f64_nearest x) else none

/-- The number is a finite binary64 value. -/
def is_f64 (x : ℚ) : Prop := f64_round x = some x

instance (x : ℚ) : Decidable (is_f64 x) := by
  unfold is_f64
  infer_instance

/-- The `double` that `fscanf("%lf")` stores for a decimal numeral (0 if infinite). -/
def of_decimal (x : ℚ) : ℚ := (f64_round x).getD 0

/-- One term of line 173, `ceil(prev_Ri / T_j) * C_j`, for `prev_Ri ≥ 0`, `T_j > 0`,
`C_j > 0`: the quotient is rounded, `ceil` is exact, the product is rounded; an
infinite quotient gives an infinite term. -/
def interference_term_f64 (prev_Ri : ℚ) (tj : TaskConfig) : Option ℚ :=
  match f64_round (prev_Ri / tj.period) with
  | none => none
  | some q => f64_round ((⌈q⌉ : ℚ) * tj.execution_time)

/-- The rounded sum `Ri += term` of line 173, with `+∞` absorbing. -/
def f64_add (Ri term : Option ℚ) : Option ℚ :=
  match Ri, term with
  | some a, some b => f64_round (a + b)
  | _, _ => none

/-- Lines 169-174 in `double`: `Ri = C; for (j < i) Ri += ceil(prev_Ri / T_j) * C_j`. -/
def interference_f64 (hp : List TaskConfig) (C prev_Ri : ℚ) : Option ℚ :=
  hp.foldl (fun Ri tj => f64_add Ri (interference_term_f64 prev_Ri tj)) (some C)

/-- Lines 166-182 in `double`. An infinite `Ri` is above every deadline, so the function
returns 0 there. -/
def rta_while_f64 (task : TaskConfig) (hp : List TaskConfig) : Nat → ℚ → ℚ → Option Bool
  | 0, Ri, prev_Ri => if Ri = prev_Ri then some true else none
  | fuel + 1, Ri, prev_Ri =>
    if Ri = prev_Ri then some true
    else
      match interference_f64 hp task.execution_time Ri with
      | none => some false
      | some next_Ri =>
        if next_Ri > task.deadline then some false
        else rta_while_f64 task hp fuel next_Ri Ri

/-- Lines 160-185 in `double`. -/
def rta_for_f64 (fuel : Nat) : List TaskConfig → List TaskConfig → Option Int
  | _, [] => some 1
  | hp, task :: rest =>
    match rta_while_f64 task hp fuel task.execution_time 0 with
    | none => none
    | some false => some 0
    | some true => rta_for_f64 fuel (hp ++ [task]) rest

/-- The parameters are positive finite `double`s. -/
def TaskConfig.IsF64 (c : TaskConfig) : Prop :=
  c.Positive ∧ is_f64 c.execution_time ∧ is_f64 c.period ∧ is_f64 c.deadline

instance (c : TaskConfig) : Decidable c.IsF64 := by
  unfold TaskConfig.IsF64
  infer_instance

/-- Function `response_time_analysis` in `double` arithmetic. `none`: too little `fuel`,
no room in `active_tasks[MAX_THREADS]`, or a parameter that is not a positive finite
`double` (NaN, `-∞` and division by zero are not represented). -/
def response_time_analysis_f64 (fuel : Nat) (task_list : List Task) (new_task : TaskConfig) :
    Option Int :=
  if MAX_THREADS ≤ (active_configs task_list).length then none
  else if ∀ c ∈ active_configs task_list ++ [new_task], c.IsF64 then
    rta_for_f64 fuel [] (qsort compare_tasks (active_configs task_list ++ [new_task]))
  else none

/-- Iterates of the recurrence as the code evaluates it: `R⁽⁰⁾ = C`,
`R⁽ⁿ⁺¹⁾ = C + Σ_j ⌈R⁽ⁿ⁾ / T_j⌉ · C_j` with every operation rounded; `none` is `+∞`. -/
def rta_iterate_f64 (hp : List TaskConfig) (C : ℚ) : Nat → Option ℚ
  | 0 => some C
  | n + 1 => (rta_iterate_f64 hp C n).bind (interference_f64 hp C)

/-- The value is above `d`: it is `+∞` or a number greater than `d`. -/
def exceeds (a : Option ℚ) (d : ℚ) : Prop :=
  match a with
  | none => True
  | some x => d < x

/-- Function `activate_task` with the analysis in `double` arithmetic. -/
def activate_task_f64 (fuel : Nat) (predefined_tasks : List TaskConfig)
    (task_list : List Task) (task_name : String) : Option (Option Int × List Task) :=
  match find_config predefined_tasks task_name with
  | none => some (some (-2), task_list)
  | some config =>
    if count_active task_list = MAX_THREADS then some (some (-3), task_list)
    else
      match response_time_analysis_f64 fuel task_list config with
      | none => none
      | some r =>
        if r = 0 then some (some (-1), task_list)
        else
          match insert_task task_name config task_list with
          | some task_list1 => some (some 1, task_list1)
          | none => some (none, task_list)

/-- Sequential run of a list of commands with the analysis in `double` arithmetic. -/
def run_f64 (fuel : Nat) (predefined_tasks : List TaskConfig) :
    List Task → List Command → Option (List (Option Int) × List Task)
  | task_list, [] => some ([], task_list)
  | task_list, Command.activate name :: cmds =>
    match activate_task_f64 fuel predefined_tasks task_list name with
    | none => none
    | some (status, task_list1) =>
      (run_f64 fuel predefined_tasks task_list1 cmds).map (fun r => (status :: r.1, r.2))
  | task_list, Command.deactivate name :: cmds =>
    (run_f64 fuel predefined_tasks (deactivate_task name task_list) cmds).map
      (fun r => (some 0 :: r.1, r.2))

/-- Catalog `J 1 1152921504606846976 1`, `I 9007199254740992 9007199254740992
9007199254740992` (the numbers are `2 ^ 60` and `2 ^ 53`). -/
def catalog_big : List TaskConfig :=
  [⟨"J", 1, 1152921504606846976, 1⟩,
    ⟨"I", 9007199254740992, 9007199254740992, 9007199254740992⟩]

/-- Task table after `1 J` under `catalog_big`. -/
def table_big : List Task :=
  ⟨"J", 1, ⟨"J", 1, 1152921504606846976, 1⟩⟩ :: List.replicate 9 zero_task

/-- Catalog `A 1.6 2.6 4.6`, `B 2.4 5.9 7.2`, as the `double`s the server holds. -/
def catalog_tenths : List TaskConfig :=
  [⟨"A", of_decimal (8 / 5), of_decimal (13 / 5), of_decimal (23 / 5)⟩,
    ⟨"B", of_decimal (12 / 5), of_decimal (59 / 10), of_decimal (36 / 5)⟩]

/-- Task table after `1 A` under `catalog_tenths`. -/
def table_tenths : List Task :=
  ⟨"A", 1, ⟨"A", of_decimal (8 / 5), of_decimal (13 / 5), of_decimal (23 / 5)⟩⟩
    :: List.replicate 9 zero_task

/-! ## Lemmas on the recurrence -/

theorem interference_eq_rhs (hp : List TaskConfig) (C R : ℚ) :
    interference hp C R = rta_rhs hp C R := by
  unfold interference rta_rhs
  induction hp generalizing C with
  | nil => simp
  | cons t ts ih =>
    simp only [List.foldl_cons, List.map_cons, List.sum_cons]
    rw [ih]
    ring

theorem rta_rhs_zero (hp : List TaskConfig) (C : ℚ) : rta_rhs hp C 0 = C := by
  unfold rta_rhs
  induction hp with
  | nil => simp
  | cons t ts ih => simp

theorem release_count_zero (hp : List TaskConfig) : release_count hp 0 = 0 := by
  unfold release_count
  induction hp with
  | nil => simp
  | cons t ts ih => simp

theorem rhs_mono_aux (hp : List TaskConfig)
    (hpos : ∀ c ∈ hp, 0 < c.execution_time ∧ 0 < c.period) (C R R1 : ℚ) (hR : R ≤ R1) :
    release_count hp R ≤ release_count hp R1 ∧ rta_rhs hp C R ≤ rta_rhs hp C R1 ∧
      (release_count hp R1 ≤ release_count hp R → rta_rhs hp C R1 ≤ rta_rhs hp C R) := by
  unfold release_count rta_rhs
  induction hp with
  | nil => simp
  | cons t ts ih =>
    have ht := hpos t (List.mem_cons_self _ _)
    have ih1 := ih (fun c hc => hpos c (List.mem_cons_of_mem _ hc))
    have hc : ⌈R / t.period⌉ ≤ ⌈R1 / t.period⌉ :=
      Int.ceil_le_ceil (div_le_div_of_nonneg_right hR ht.2.le)
    have hcq : (⌈R / t.period⌉ : ℚ) ≤ (⌈R1 / t.period⌉ : ℚ) := by exact_mod_cast hc
    have hm : (⌈R / t.period⌉ : ℚ) * t.execution_time
        ≤ (⌈R1 / t.period⌉ : ℚ) * t.execution_time :=
      mul_le_mul_of_nonneg_right hcq ht.1.le
    simp only [List.map_cons, List.sum_cons]
    refine ⟨by omega, by linarith [ih1.2.1], ?_⟩
    intro hle
    have he : ⌈R1 / t.period⌉ = ⌈R / t.period⌉ := by omega
    have h3 := ih1.2.2 (by omega)
    rw [he]
    linarith

theorem rta_rhs_mono (hp : List TaskConfig)
    (hpos : ∀ c ∈ hp, 0 < c.execution_time ∧ 0 < c.period) (C : ℚ) {R R1 : ℚ} (hR : R ≤ R1) :
    rta_rhs hp C R ≤ rta_rhs hp C R1 :=
  (rhs_mono_aux hp hpos C R R1 hR).2.1

theorem release_count_mono (hp : List TaskConfig)
    (hpos : ∀ c ∈ hp, 0 < c.execution_time ∧ 0 < c.period) {R R1 : ℚ} (hR : R ≤ R1) :
    release_count hp R ≤ release_count hp R1 :=
  (rhs_mono_aux hp hpos 0 R R1 hR).1

theorem release_count_lt (hp : List TaskConfig)
    (hpos : ∀ c ∈ hp, 0 < c.execution_time ∧ 0 < c.period) (C : ℚ) {R R1 : ℚ} (hR : R ≤ R1)
    (hlt : rta_rhs hp C R < rta_rhs hp C R1) : release_count hp R < release_count hp R1 := by
  by_contra hcon
  have := (rhs_mono_aux hp hpos C R R1 hR).2.2 (by omega)
  linarith

theorem rta_rhs_ge (hp : List TaskConfig)
    (hpos : ∀ c ∈ hp, 0 < c.execution_time ∧ 0 < c.period) (C : ℚ) {R : ℚ} (hR : 0 ≤ R) :
    C ≤ rta_rhs hp C R := by
  have := rta_rhs_mono hp hpos C hR
  rwa [rta_rhs_zero] at this

/-! ## The while loop of one task -/

theorem rta_while_fuel_succ (task : TaskConfig) (hp : List TaskConfig) (b : Bool) :
    ∀ (fuel : Nat) (Ri prev : ℚ), rta_while task hp fuel Ri prev = some b →
      rta_while task hp (fuel + 1) Ri prev = some b := by
  intro fuel
  induction fuel with
  | zero =>
    intro Ri prev h
    simp only [rta_while] at h ⊢
    split_ifs at h ⊢
    exact h
  | succ n ih =>
    intro Ri prev h
    rw [rta_while] at h ⊢
    by_cases h1 : Ri = prev
    · simpa [h1] using h
    · simp only [h1, if_false] at h ⊢
      by_cases h2 : interference hp task.execution_time Ri > task.deadline
      · simpa [h2] using h
      · simp only [h2, if_false] at h ⊢
        exact ih _ _ h

theorem rta_while_fuel_le (task : TaskConfig) (hp : List TaskConfig) (b : Bool)
    (fuel fuel1 : Nat) (hle : fuel ≤ fuel1) (Ri prev : ℚ)
    (h : rta_while task hp fuel Ri prev = some b) :
    rta_while task hp fuel1 Ri prev = some b := by
  induction hle with
  | refl => exact h
  | step _ ih => exact rta_while_fuel_succ task hp b _ Ri prev ih

theorem rta_while_terminates (task : TaskConfig) (hp : List TaskConfig)
    (hpos : ∀ c ∈ hp, 0 < c.execution_time ∧ 0 < c.period) :
    ∀ (n : Nat) (Ri prev : ℚ), Ri = rta_rhs hp task.execution_time prev → prev ≤ Ri →
      release_count hp task.deadline - release_count hp prev ≤ (n : Int) →
      ∃ b, rta_while task hp (n + 1) Ri prev = some b := by
  intro n
  induction n with
  | zero =>
    intro Ri prev hRi hle hcount
    rw [rta_while]
    by_cases h1 : Ri = prev
    · exact ⟨true, by simp [h1]⟩
    · simp only [h1, if_false, interference_eq_rhs]
      by_cases h2 : rta_rhs hp task.execution_time Ri > task.deadline
      · exact ⟨false, by simp [h2]⟩
      · simp only [h2, if_false]
        have hnext : Ri ≤ rta_rhs hp task.execution_time Ri := by
          have := rta_rhs_mono hp hpos task.execution_time hle
          rwa [← hRi] at this
        by_cases h3 : rta_rhs hp task.execution_time Ri = Ri
        · exact ⟨true, by simp [rta_while, h3]⟩
        · exfalso
          have hlt : rta_rhs hp task.execution_time prev < rta_rhs hp task.execution_time Ri := by
            rw [← hRi]; exact lt_of_le_of_ne hnext (Ne.symm h3)
          have hc1 := release_count_lt hp hpos task.execution_time hle hlt
          have hc2 : release_count hp Ri ≤ release_count hp task.deadline :=
            release_count_mono hp hpos (le_trans hnext (not_lt.mp h2))
          simp only [Nat.cast_zero] at hcount
          omega
  | succ n ih =>
    intro Ri prev hRi hle hcount
    rw [rta_while]
    by_cases h1 : Ri = prev
    · exact ⟨true, by simp [h1]⟩
    · simp only [h1, if_false, interference_eq_rhs]
      by_cases h2 : rta_rhs hp task.execution_time Ri > task.deadline
      · exact ⟨false, by simp [h2]⟩
      · simp only [h2, if_false]
        have hnext : Ri ≤ rta_rhs hp task.execution_time Ri := by
          have := rta_rhs_mono hp hpos task.execution_time hle
          rwa [← hRi] at this
        by_cases h3 : rta_rhs hp task.execution_time Ri = Ri
        · exact ⟨true, by rw [rta_while]; simp [h3]⟩
        · have hlt : rta_rhs hp task.execution_time prev < rta_rhs hp task.execution_time Ri := by
            rw [← hRi]; exact lt_of_le_of_ne hnext (Ne.symm h3)
          have hc1 := release_count_lt hp hpos task.execution_time hle hlt
          apply ih _ _ rfl hnext
          push_cast at hcount
          omega

theorem rta_while_true_iterate (task : TaskConfig) (hp : List TaskConfig) :
    ∀ (fuel k : Nat) (prev : ℚ),
      rta_while task hp fuel (rta_iterate hp task.execution_time k) prev = some true →
      rta_iterate hp task.execution_time k ≠ prev →
      ∃ n, rta_iterate hp task.execution_time (n + 1) = rta_iterate hp task.execution_time n ∧
        rta_iterate hp task.execution_time n ≤ task.deadline := by
  intro fuel
  induction fuel with
  | zero =>
    intro k prev h hne
    simp [rta_while, hne] at h
  | succ f ih =>
    intro k prev h hne
    rw [rta_while] at h
    simp only [hne, if_false, interference_eq_rhs] at h
    by_cases h2 : rta_rhs hp task.execution_time (rta_iterate hp task.execution_time k)
        > task.deadline
    · simp [h2] at h
    · simp only [h2, if_false] at h
      by_cases h3 : rta_iterate hp task.execution_time (k + 1)
          = rta_iterate hp task.execution_time k
      · refine ⟨k, h3, ?_⟩
        rw [← h3]
        exact not_lt.mp h2
      · exact ih (k + 1) _ h h3

theorem rta_while_false_iterate (task : TaskConfig) (hp : List TaskConfig) :
    ∀ (fuel k : Nat) (prev : ℚ),
      rta_while task hp fuel (rta_iterate hp task.execution_time k) prev = some false →
      ∃ n, task.deadline < rta_iterate hp task.execution_time n := by
  intro fuel
  induction fuel with
  | zero =>
    intro k prev h
    simp only [rta_while] at h
    split_ifs at h
    simp at h
  | succ f ih =>
    intro k prev h
    rw [rta_while] at h
    by_cases h1 : rta_iterate hp task.execution_time k = prev
    · simp [h1] at h
    · simp only [h1, if_false, interference_eq_rhs] at h
      by_cases h2 : rta_rhs hp task.execution_time (rta_iterate hp task.execution_time k)
          > task.deadline
      · exact ⟨k + 1, h2⟩
      · simp only [h2, if_false] at h
        exact ih (k + 1) _ h

theorem rta_iterate_le_fixed (hp : List TaskConfig)
    (hpos : ∀ c ∈ hp, 0 < c.execution_time ∧ 0 < c.period) (C R : ℚ) (hR : 0 ≤ R)
    (hfix : R = rta_rhs hp C R) (n : Nat) : rta_iterate hp C n ≤ R := by
  induction n with
  | zero =>
    rw [hfix]
    exact rta_rhs_ge hp hpos C hR
  | succ n ih =>
    rw [hfix]
    exact rta_rhs_mono hp hpos C ih

/-! ## The for loop over the sorted candidates -/

theorem rta_while_returns (task : TaskConfig) (hp : List TaskConfig)
    (hpos : ∀ c ∈ hp, 0 < c.execution_time ∧ 0 < c.period) (hC : 0 ≤ task.execution_time) :
    ∃ N b, ∀ fuel, N ≤ fuel → rta_while task hp fuel task.execution_time 0 = some b := by
  have hinit : release_count hp task.deadline - release_count hp 0
      ≤ ((release_count hp task.deadline).toNat : Int) := by
    rw [release_count_zero]
    have := Int.self_le_toNat (release_count hp task.deadline)
    omega
  obtain ⟨b, hb⟩ := rta_while_terminates task hp hpos _ task.execution_time 0
    (rta_rhs_zero hp _).symm hC hinit
  exact ⟨_, b, fun fuel hle => rta_while_fuel_le task hp b _ fuel hle _ _ hb⟩

theorem rta_for_returns :
    ∀ (rest hp : List TaskConfig), (∀ c ∈ hp ++ rest, c.Positive) →
      ∃ N r, (r = 0 ∨ r = 1) ∧ ∀ fuel, N ≤ fuel → rta_for fuel hp rest = some r := by
  intro rest
  induction rest with
  | nil => intro hp _; exact ⟨0, 1, Or.inr rfl, fun _ _ => rfl⟩
  | cons t ts ih =>
    intro hp hpos
    have hhp : ∀ c ∈ hp, 0 < c.execution_time ∧ 0 < c.period := fun c hc =>
      ⟨(hpos c (List.mem_append_left _ hc)).1, (hpos c (List.mem_append_left _ hc)).2.1⟩
    have ht : t.Positive := hpos t (by simp)
    obtain ⟨N1, b, hb⟩ := rta_while_returns t hp hhp ht.1.le
    cases b with
    | false =>
      refine ⟨N1, 0, Or.inl rfl, fun fuel hle => ?_⟩
      rw [rta_for, hb fuel hle]
    | true =>
      obtain ⟨N2, r, hr, hfor⟩ := ih (hp ++ [t]) (by simpa using hpos)
      refine ⟨max N1 N2, r, hr, fun fuel hle => ?_⟩
      rw [rta_for, hb fuel (le_trans (le_max_left _ _) hle)]
      exact hfor fuel (le_trans (le_max_right _ _) hle)

/-! ## The sort -/

theorem compare_tasks_le_iff (a b : TaskConfig) :
    compare_tasks a b ≤ 0 ↔ a.deadline ≤ b.deadline := by
  unfold compare_tasks
  rcases lt_trichotomy a.deadline b.deadline with h | h | h
  · simp [h, not_lt.mpr h.le, h.le]
  · simp [h]
  · simp [h, not_lt.mpr h.le]

theorem qsort_perm (l : List TaskConfig) : (qsort compare_tasks l).Perm l :=
  List.perm_insertionSort _ l

theorem qsort_sorted (l : List TaskConfig) :
    (qsort compare_tasks l).Sorted (fun a b => a.deadline ≤ b.deadline) := by
  haveI : IsTotal TaskConfig (fun a b => compare_tasks a b ≤ 0) :=
    ⟨fun a b => by simp only [compare_tasks_le_iff]; exact le_total _ _⟩
  haveI : IsTrans TaskConfig (fun a b => compare_tasks a b ≤ 0) :=
    ⟨fun a b c => by simp only [compare_tasks_le_iff]; exact le_trans⟩
  have h := List.sorted_insertionSort (fun a b => compare_tasks a b ≤ 0) l
  exact List.Pairwise.imp (fun {a b} hab => (compare_tasks_le_iff a b).mp hab) h

theorem positive_of_take {S : List TaskConfig} (hpos : ∀ c ∈ S, c.Positive) (i : Nat) :
    ∀ c ∈ S.take i, 0 < c.execution_time ∧ 0 < c.period := fun c hc =>
  ⟨(hpos c (List.mem_of_mem_take hc)).1, (hpos c (List.mem_of_mem_take hc)).2.1⟩

/-! ## Termination of the analysis -/

/-- C3: on positive parameters the fixed-point loop of every task of the candidate
array ends, whatever the utilization and the number of tasks, either at an iterate
with `R⁽ⁿ⁺¹⁾ = R⁽ⁿ⁾ ≤ D_i` or with an iterate above `D_i`, and the loops of
`response_time_analysis` return 0 or 1: there are a bound `N` and a value `r ∈ {0, 1}`
such that every run allowed at least `N` iterations returns `r`. -/
theorem rta_loop_terminates (tasks : List TaskConfig) (hpos : ∀ c ∈ tasks, c.Positive) :
    (∀ (i : Nat) (hi : i < tasks.length), ∃ N b,
      (∀ fuel, N ≤ fuel →
        rta_while tasks[i] (tasks.take i) fuel tasks[i].execution_time 0 = some b) ∧
      (b = true → ∃ n,
        rta_iterate (tasks.take i) tasks[i].execution_time (n + 1)
          = rta_iterate (tasks.take i) tasks[i].execution_time n ∧
        rta_iterate (tasks.take i) tasks[i].execution_time n ≤ tasks[i].deadline) ∧
      (b = false → ∃ n,
        tasks[i].deadline < rta_iterate (tasks.take i) tasks[i].execution_time n)) ∧
    ∃ N r, (r = 0 ∨ r = 1) ∧ (∀ fuel, N ≤ fuel → rta_for fuel [] tasks = some r) ∧
      ∀ (task_list : List Task) (new_task : TaskConfig),
        (active_configs task_list).length < MAX_THREADS →
        qsort compare_tasks (active_configs task_list ++ [new_task]) = tasks →
        ∀ fuel, N ≤ fuel → response_time_analysis fuel task_list new_task = some r := by
  refine ⟨fun i hi => ?_, ?_⟩
  · have hCi := (hpos _ (List.getElem_mem hi)).1
    obtain ⟨N, b, hb⟩ := rta_while_returns tasks[i] _ (positive_of_take hpos i) hCi.le
    refine ⟨N, b, hb, fun hbt => ?_, fun hbf => ?_⟩
    · subst hbt
      exact rta_while_true_iterate _ _ N 0 0 (hb N le_rfl) (ne_of_gt hCi)
    · subst hbf
      exact rta_while_false_iterate _ _ N 0 0 (hb N le_rfl)
  · obtain ⟨N, r, hr, hfor⟩ := rta_for_returns tasks [] (by simpa using hpos)
    refine ⟨N, r, hr, hfor, fun task_list new_task hroom hsort fuel hle => ?_⟩
    unfold response_time_analysis
    simp only [not_le.mpr hroom, if_false, hsort]
    exact hfor fuel hle

/-- C3 witness: a candidate array of utilization 2.4, `A 400 500 500` three times. -/
theorem rta_loop_terminates_witness :
    ∃ N r, (r = 0 ∨ r = 1) ∧
      (∀ fuel, N ≤ fuel →
        rta_for fuel [] (List.replicate 3 (⟨"A", 400, 500, 500⟩ : TaskConfig)) = some r) ∧
      ∀ (task_list : List Task) (new_task : TaskConfig),
        (active_configs task_list).length < MAX_THREADS →
        qsort compare_tasks (active_configs task_list ++ [new_task])
          = List.replicate 3 (⟨"A", 400, 500, 500⟩ : TaskConfig) →
        ∀ fuel, N ≤ fuel → response_time_analysis fuel task_list new_task = some r :=
  (rta_loop_terminates (List.replicate 3 ⟨"A", 400, 500, 500⟩) (by decide!)).2

/-! ## The loops in `double` arithmetic -/

theorem rta_while_f64_true (task : TaskConfig) (hp : List TaskConfig) :
    ∀ (fuel k : Nat) (r prev : ℚ),
      rta_iterate_f64 hp task.execution_time k = some r →
      rta_while_f64 task hp fuel r prev = some true → r ≠ prev →
      ∃ (n : Nat) (R : ℚ), rta_iterate_f64 hp task.execution_time n = some R ∧
        interference_f64 hp task.execution_time R = some R ∧ R ≤ task.deadline := by
  intro fuel
  induction fuel with
  | zero =>
    intro k r prev _ h hne
    simp [rta_while_f64, hne] at h
  | succ f ih =>
    intro k r prev hk h hne
    rw [rta_while_f64] at h
    simp only [hne, if_false] at h
    cases hnext : interference_f64 hp task.execution_time r with
    | none => simp [hnext] at h
    | some next =>
      simp only [hnext] at h
      by_cases h2 : next > task.deadline
      · simp [h2] at h
      · simp only [h2, if_false] at h
        have hk1 : rta_iterate_f64 hp task.execution_time (k + 1) = some next := by
          simp [rta_iterate_f64, hk, hnext]
        by_cases h3 : next = r
        · refine ⟨k, r, hk, ?_, ?_⟩
          · rw [hnext, h3]
          · rw [← h3]; exact not_lt.mp h2
        · exact ih (k + 1) next r hk1 h h3

theorem rta_while_f64_false (task : TaskConfig) (hp : List TaskConfig) :
    ∀ (fuel k : Nat) (r prev : ℚ),
      rta_iterate_f64 hp task.execution_time k = some r →
      rta_while_f64 task hp fuel r prev = some false →
      ∃ n, exceeds (rta_iterate_f64 hp task.execution_time n) task.deadline := by
  intro fuel
  induction fuel with
  | zero =>
    intro k r prev _ h
    simp only [rta_while_f64] at h
    split_ifs at h
    simp at h
  | succ f ih =>
    intro k r prev hk h
    rw [rta_while_f64] at h
    by_cases h1 : r = prev
    · simp [h1] at h
    · simp only [h1, if_false] at h
      cases hnext : interference_f64 hp task.execution_time r with
      | none =>
        refine ⟨k + 1, ?_⟩
        simp [rta_iterate_f64, hk, hnext, exceeds]
      | some next =>
        simp only [hnext] at h
        have hk1 : rta_iterate_f64 hp task.execution_time (k + 1) = some next := by
          simp [rta_iterate_f64, hk, hnext]
        by_cases h2 : next > task.deadline
        · refine ⟨k + 1, ?_⟩
          rw [hk1]
          exact h2
        · simp only [h2, if_false] at h
          exact ih (k + 1) next r hk1 h

theorem rta_for_f64_eq_one (fuel : Nat) :
    ∀ (rest hp : List TaskConfig), rta_for_f64 fuel hp rest = some 1 →
      ∀ (i : Nat) (hi : i < rest.length),
        rta_while_f64 rest[i] (hp ++ rest.take i) fuel rest[i].execution_time 0
          = some true := by
  intro rest
  induction rest with
  | nil => intro hp _ i hi; simp at hi
  | cons t ts ih =>
    intro hp h i hi
    rw [rta_for_f64] at h
    split at h
    · simp at h
    · simp at h
    · rename_i hw
      cases i with
      | zero => simpa using hw
      | succ k =>
        have := ih (hp ++ [t]) h k (by simpa using hi)
        simpa using this

theorem rta_for_f64_eq_zero (fuel : Nat) :
    ∀ (rest hp : List TaskConfig), rta_for_f64 fuel hp rest = some 0 →
      ∃ (i : Nat) (hi : i < rest.length),
        rta_while_f64 rest[i] (hp ++ rest.take i) fuel rest[i].execution_time 0
          = some false := by
  intro rest
  induction rest with
  | nil => intro hp h; simp [rta_for_f64] at h
  | cons t ts ih =>
    intro hp h
    rw [rta_for_f64] at h
    split at h
    · simp at h
    · rename_i hw
      exact ⟨0, by simp, by simpa using hw⟩
    · obtain ⟨i, hi, hw⟩ := ih (hp ++ [t]) h
      exact ⟨i + 1, by simpa using hi, by simpa using hw⟩

theorem response_time_analysis_f64_eq {fuel : Nat} {task_list : List Task}
    {new_task : TaskConfig} {r : Int}
    (h : response_time_analysis_f64 fuel task_list new_task = some r) :
    (∀ c ∈ active_configs task_list ++ [new_task], c.IsF64) ∧
      rta_for_f64 fuel [] (qsort compare_tasks (active_configs task_list ++ [new_task]))
        = some r := by
  unfold response_time_analysis_f64 at h
  split_ifs at h with h1 h2
  exact ⟨h2, h⟩

/-- C1 (amended): when `response_time_analysis`, computing in `double`, returns 1, the
candidate set (active tasks plus the new one) sorted by non-decreasing deadline has,
at every index `i`, a value `R` with `R = C_i + Σ_{j<i} ⌈R / T_j⌉ · C_j` as the code
evaluates it (every division, product and sum rounded to nearest) and `R ≤ D_i`;
`R` is an iterate of the computation. -/
theorem rta_f64_accept_fixed_points (fuel : Nat) (task_list : List Task)
    (new_task : TaskConfig)
    (h : response_time_analysis_f64 fuel task_list new_task = some 1) :
    ∃ S : List TaskConfig, S = qsort compare_tasks (active_configs task_list ++ [new_task]) ∧
      S.Perm (active_configs task_list ++ [new_task]) ∧
      S.Sorted (fun a b => a.deadline ≤ b.deadline) ∧
      ∀ (i : Nat) (hi : i < S.length), ∃ R : ℚ,
        interference_f64 (S.take i) S[i].execution_time R = some R ∧
        R ≤ S[i].deadline ∧
        ∃ n, rta_iterate_f64 (S.take i) S[i].execution_time n = some R := by
  obtain ⟨hguard, hfor⟩ := response_time_analysis_f64_eq h
  refine ⟨_, rfl, qsort_perm _, qsort_sorted _, ?_⟩
  intro i hi
  have hS : ∀ c ∈ qsort compare_tasks (active_configs task_list ++ [new_task]), c.IsF64 :=
    fun c hc => hguard c ((qsort_perm _).mem_iff.mp hc)
  have hw := rta_for_f64_eq_one fuel _ [] hfor i hi
  simp only [List.nil_append] at hw
  have hCi := (hS _ (List.getElem_mem hi)).1.1
  obtain ⟨n, R, hn, hfix, hle⟩ :=
    rta_while_f64_true _ _ fuel 0 _ 0 rfl hw (ne_of_gt hCi)
  exact ⟨R, hfix, hle, n, hn⟩

/-- C1 witness: scenario S1, `B 100 500 500` admitted next to an active `A 100 500 500`. -/
theorem rta_f64_accept_fixed_points_witness :
    response_time_analysis_f64 3
        (⟨"A", 1, ⟨"A", 100, 500, 500⟩⟩ :: List.replicate 9 zero_task)
        ⟨"B", 100, 500, 500⟩ = some 1 ∧
    ∃ S : List TaskConfig,
      S = qsort compare_tasks (active_configs
        (⟨"A", 1, ⟨"A", 100, 500, 500⟩⟩ :: List.replicate 9 zero_task)
          ++ [⟨"B", 100, 500, 500⟩]) ∧
      S.Perm (active_configs (⟨"A", 1, ⟨"A", 100, 500, 500⟩⟩ :: List.replicate 9 zero_task)
        ++ [⟨"B", 100, 500, 500⟩]) ∧
      S.Sorted (fun a b => a.deadline ≤ b.deadline) ∧
      ∀ (i : Nat) (hi : i < S.length), ∃ R : ℚ,
        interference_f64 (S.take i) S[i].execution_time R = some R ∧
        R ≤ S[i].deadline ∧
        ∃ n, rta_iterate_f64 (S.take i) S[i].execution_time n = some R :=
  ⟨by decide!,
    rta_f64_accept_fixed_points 3
      (⟨"A", 1, ⟨"A", 100, 500, 500⟩⟩ :: List.replicate 9 zero_task)
      ⟨"B", 100, 500, 500⟩ (by decide!)⟩

/-- C1 (as stated) fails: with catalog `J 1 2^60 1`, `I 2^53 2^53 2^53` and commands
`1 J`, `1 I` all parameters are positive and both tasks are activated, the analysis
returning 1 for I because `2^53 + 1` is rounded to `2^53`; yet no number `R` at all
satisfies `R = C_I + ⌈R / T_J⌉ · C_J` and `R ≤ D_I`. -/
theorem rta_f64_accepts_without_fixed_point :
    (∀ c ∈ active_configs table_big
        ++ [⟨"I", 9007199254740992, 9007199254740992, 9007199254740992⟩], c.Positive) ∧
    (run_f64 3 catalog_big initial_task_list [Command.activate "J", Command.activate "I"]).map
        (fun r => r.1) = some [some 1, some 1] ∧
    response_time_analysis_f64 3 table_big
        ⟨"I", 9007199254740992, 9007199254740992, 9007199254740992⟩ = some 1 ∧
    ∃ S : List TaskConfig,
      S = qsort compare_tasks (active_configs table_big
        ++ [⟨"I", 9007199254740992, 9007199254740992, 9007199254740992⟩]) ∧
      ∃ (i : Nat) (hi : i < S.length), ¬ ∃ R : ℚ,
        R = S[i].execution_time
          + ((S.take i).map (fun tj => (⌈R / tj.period⌉ : ℚ) * tj.execution_time)).sum ∧
        R ≤ S[i].deadline := by
  refine ⟨by decide!, by decide!, by decide!,
    [⟨"J", 1, 1152921504606846976, 1⟩,
      ⟨"I", 9007199254740992, 9007199254740992, 9007199254740992⟩], by decide!, 1,
    by decide, ?_⟩
  rintro ⟨R, hR, hle⟩
  simp only [List.getElem_cons_succ, List.getElem_cons_zero, List.take_succ_cons,
    List.take_zero, List.map_cons, List.map_nil, List.sum_cons, List.sum_nil, mul_one,
    add_zero] at hR hle
  have hceil : R / 1152921504606846976 ≤ (⌈R / 1152921504606846976⌉ : ℚ) := Int.le_ceil _
  have hk : (⌈R / 1152921504606846976⌉ : ℚ) ≤ 0 := by linarith
  rw [div_le_iff₀ (by norm_num)] at hceil
  linarith

/-! ## Rounding to binary64 is monotone -/

theorem log2_steps_spec : ∀ (fuel n : Nat), 0 < n → n ≤ fuel →
    2 ^ log2_steps fuel n ≤ n ∧ n < 2 ^ (log2_steps fuel n + 1) := by
  intro fuel
  induction fuel with
  | zero => intro n h0 hle; omega
  | succ f ih =>
    intro n h0 hle
    rw [log2_steps]
    by_cases h2 : n < 2
    · simp only [h2, if_true]
      omega
    · simp only [h2, if_false]
      obtain ⟨h3, h4⟩ := ih (n / 2) (by omega) (by omega)
      rw [pow_succ] at h4 ⊢
      rw [pow_succ]
      constructor <;> omega

theorem log2_floor_spec (n : Nat) (h0 : 0 < n) :
    2 ^ log2_floor n ≤ n ∧ n < 2 ^ (log2_floor n + 1) :=
  log2_steps_spec n n h0 le_rfl

theorem binade_spec (x : ℚ) (hx : 0 < x) :
    (2 : ℚ) ^ binade x ≤ x ∧ x < (2 : ℚ) ^ (binade x + 1) := by
  have hnum : 0 < x.num := Rat.num_pos.mpr hx
  have hn0 : 0 < x.num.natAbs := Int.natAbs_pos.mpr (ne_of_gt hnum)
  have hd0 : 0 < x.den := x.den_pos
  obtain ⟨ha1, ha2⟩ := log2_floor_spec _ hn0
  obtain ⟨hb1, hb2⟩ := log2_floor_spec _ hd0
  have hxeq : x = (x.num.natAbs : ℚ) / (x.den : ℚ) := by
    have h2 : (x.num.natAbs : ℚ) = (x.num : ℚ) := by
      rw [Nat.cast_natAbs, abs_of_nonneg hnum.le]
    rw [h2]
    exact (Rat.num_div_den x).symm
  set n : ℕ := x.num.natAbs
  set d : ℕ := x.den
  set a : ℕ := log2_floor n
  set b : ℕ := log2_floor d
  have hP : (0 : ℚ) < 2 ^ a := by positivity
  have hQ : (0 : ℚ) < 2 ^ b := by positivity
  have ha1q : (2 : ℚ) ^ a ≤ n := by exact_mod_cast ha1
  have ha2q : (n : ℚ) < 2 * 2 ^ a := by
    have : (n : ℚ) < 2 ^ (a + 1) := by exact_mod_cast ha2
    rw [pow_succ] at this; linarith
  have hb1q : (2 : ℚ) ^ b ≤ d := by exact_mod_cast hb1
  have hb2q : (d : ℚ) < 2 * 2 ^ b := by
    have : (d : ℚ) < 2 ^ (b + 1) := by exact_mod_cast hb2
    rw [pow_succ] at this; linarith
  have hdq : (0 : ℚ) < d := by exact_mod_cast hd0
  have hE : (2 : ℚ) ^ ((a : ℤ) - (b : ℤ)) = 2 ^ a / 2 ^ b := by
    rw [zpow_sub₀ (by norm_num : (2 : ℚ) ≠ 0), zpow_natCast, zpow_natCast]
  have hlow : (2 : ℚ) ^ a / 2 ^ b / 2 ≤ x := by
    rw [hxeq, div_div, div_le_div_iff₀ (by positivity) hdq]
    nlinarith
  have hhigh : x < 2 * (2 ^ a / 2 ^ b) := by
    rw [hxeq, ← mul_div_assoc, div_lt_div_iff₀ hdq hQ]
    nlinarith
  unfold binade
  by_cases hlt : x < (2 : ℚ) ^ ((a : ℤ) - (b : ℤ))
  · simp only [hlt, if_true]
    constructor
    · rw [zpow_sub_one₀ (by norm_num : (2 : ℚ) ≠ 0), hE]
      simpa [div_eq_mul_inv] using hlow
    · simpa using hlt
  · simp only [hlt, if_false]
    constructor
    · exact not_lt.mp hlt
    · rw [zpow_add_one₀ (by norm_num : (2 : ℚ) ≠ 0), hE]
      linarith

theorem binade_mono {x y : ℚ} (hx : 0 < x) (hxy : x ≤ y) : binade x ≤ binade y := by
  by_contra hcon
  push_neg at hcon
  have h1 := (binade_spec x hx).1
  have h2 := (binade_spec y (lt_of_lt_of_le hx hxy)).2
  have h3 : (2 : ℚ) ^ (binade y + 1) ≤ 2 ^ binade x :=
    zpow_le_zpow_right₀ (by norm_num) (by omega)
  linarith

theorem round_half_even_bounds (q : ℚ) :
    ⌊q⌋ ≤ round_half_even q ∧ round_half_even q ≤ ⌊q⌋ + 1 := by
  unfold round_half_even
  split_ifs <;> constructor <;> omega

theorem round_half_even_mono {a b : ℚ} (h : a ≤ b) :
    round_half_even a ≤ round_half_even b := by
  have hf : ⌊a⌋ ≤ ⌊b⌋ := Int.floor_mono h
  rcases lt_or_eq_of_le hf with hlt | heq
  · have h1 := (round_half_even_bounds a).2
    have h2 := (round_half_even_bounds b).1
    omega
  · unfold round_half_even
    rw [heq]
    have hfr : a - ⌊b⌋ ≤ b - ⌊b⌋ := by linarith
    split_ifs <;> first | omega | (exfalso; linarith)

theorem round_half_even_intCast (n : Int) : round_half_even (n : ℚ) = n := by
  unfold round_half_even
  simp

theorem f64_ulp_pos (x : ℚ) : 0 < f64_ulp x := by
  unfold f64_ulp
  positivity

theorem f64_nearest_zero : f64_nearest 0 = 0 := by
  unfold f64_nearest
  have : round_half_even ((0 : ℚ) / f64_ulp 0) = 0 := by
    rw [zero_div]
    exact_mod_cast round_half_even_intCast 0
  rw [this]
  simp

theorem f64_nearest_nonneg {x : ℚ} (hx : 0 ≤ x) : 0 ≤ f64_nearest x := by
  unfold f64_nearest
  have h1 : 0 ≤ x / f64_ulp x := div_nonneg hx (f64_ulp_pos x).le
  have h2 : (0 : Int) ≤ round_half_even (x / f64_ulp x) := by
    have := (round_half_even_bounds (x / f64_ulp x)).1
    have : (0 : Int) ≤ ⌊x / f64_ulp x⌋ := Int.floor_nonneg.mpr h1
    omega
  have h3 : (0 : ℚ) ≤ (round_half_even (x / f64_ulp x) : ℚ) := by exact_mod_cast h2
  exact mul_nonneg h3 (f64_ulp_pos x).le

theorem nearest_le_of_le {q u : ℚ} (hu : 0 < u) (M : Int) (h : q ≤ (M : ℚ) * u) :
    (round_half_even (q / u) : ℚ) * u ≤ (M : ℚ) * u := by
  have h1 : q / u ≤ (M : ℚ) := by rwa [div_le_iff₀ hu]
  have h2 := round_half_even_mono h1
  rw [round_half_even_intCast] at h2
  have h3 : (round_half_even (q / u) : ℚ) ≤ (M : ℚ) := by exact_mod_cast h2
  exact mul_le_mul_of_nonneg_right h3 hu.le

theorem le_nearest_of_le {q u : ℚ} (hu : 0 < u) (M : Int) (h : (M : ℚ) * u ≤ q) :
    (M : ℚ) * u ≤ (round_half_even (q / u) : ℚ) * u := by
  have h1 : (M : ℚ) ≤ q / u := by rwa [le_div_iff₀ hu]
  have h2 := round_half_even_mono h1
  rw [round_half_even_intCast] at h2
  have h3 : (M : ℚ) ≤ (round_half_even (q / u) : ℚ) := by exact_mod_cast h2
  exact mul_le_mul_of_nonneg_right h3 hu.le

theorem f64_nearest_mono {x y : ℚ} (hx : 0 ≤ x) (hxy : x ≤ y) :
    f64_nearest x ≤ f64_nearest y := by
  rcases hx.eq_or_lt with rfl | hpos
  · rw [f64_nearest_zero]
    exact f64_nearest_nonneg hxy
  have hypos : 0 < y := lt_of_lt_of_le hpos hxy
  have hexy : max (binade x) (-1022) ≤ max (binade y) (-1022) :=
    max_le_max (binade_mono hpos hxy) le_rfl
  have hux : f64_ulp x = (2 : ℚ) ^ (max (binade x) (-1022) - 52) := by
    unfold f64_ulp; rw [abs_of_pos hpos]
  have huy : f64_ulp y = (2 : ℚ) ^ (max (binade y) (-1022) - 52) := by
    unfold f64_ulp; rw [abs_of_pos hypos]
  have h2 : (2 : ℚ) ≠ 0 := by norm_num
  rcases eq_or_lt_of_le hexy with heq | hlt
  · have hu : f64_ulp x = f64_ulp y := by rw [hux, huy, heq]
    unfold f64_nearest
    rw [hu]
    have h1 : x / f64_ulp y ≤ y / f64_ulp y :=
      div_le_div_of_nonneg_right hxy (f64_ulp_pos y).le
    have h3 : (round_half_even (x / f64_ulp y) : ℚ) ≤ (round_half_even (y / f64_ulp y) : ℚ) := by
      exact_mod_cast round_half_even_mono h1
    exact mul_le_mul_of_nonneg_right h3 (f64_ulp_pos y).le
  · have hey : max (binade y) (-1022) = binade y := by
      have : (-1022 : Int) ≤ max (binade x) (-1022) := le_max_right _ _
      exact max_eq_left (by
        by_contra hcon
        push_neg at hcon
        rw [max_eq_right hcon.le] at hlt
        omega)
    have hxup : x < (2 : ℚ) ^ (max (binade x) (-1022) + 1) :=
      lt_of_lt_of_le (binade_spec x hpos).2
        (zpow_le_zpow_right₀ (by norm_num) (by have := le_max_left (binade x) (-1022); omega))
    have hylow : (2 : ℚ) ^ (max (binade y) (-1022)) ≤ y := by
      rw [hey]; exact (binade_spec y hypos).1
    have hpow53 : ∀ e : Int, (2 : ℚ) ^ (e + 1) = ((9007199254740992 : Int) : ℚ) * 2 ^ (e - 52) := by
      intro e
      have : (2 : ℚ) ^ (e + 1) = 2 ^ (53 : Int) * 2 ^ (e - 52) := by
        rw [← zpow_add₀ h2]; congr 1; ring
      rw [this]; norm_num
    have hpow52 : ∀ e : Int, (2 : ℚ) ^ e = ((4503599627370496 : Int) : ℚ) * 2 ^ (e - 52) := by
      intro e
      have : (2 : ℚ) ^ e = 2 ^ (52 : Int) * 2 ^ (e - 52) := by
        rw [← zpow_add₀ h2]; congr 1; ring
      rw [this]; norm_num
    have hA : f64_nearest x ≤ (2 : ℚ) ^ (max (binade x) (-1022) + 1) := by
      unfold f64_nearest
      rw [hpow53, ← hux]
      apply nearest_le_of_le (f64_ulp_pos x)
      rw [hux, ← hpow53]
      exact hxup.le
    have hB : (2 : ℚ) ^ (max (binade y) (-1022)) ≤ f64_nearest y := by
      unfold f64_nearest
      rw [hpow52, ← huy]
      apply le_nearest_of_le (f64_ulp_pos y)
      rw [huy, ← hpow52]
      exact hylow
    have hC : (2 : ℚ) ^ (max (binade x) (-1022) + 1) ≤ 2 ^ (max (binade y) (-1022)) :=
      zpow_le_zpow_right₀ (by norm_num) (by omega)
    linarith

theorem f64_round_zero : f64_round 0 = some 0 := by
  unfold f64_round
  rw [f64_nearest_zero]
  simp

theorem f64_round_mono {x y ry : ℚ} (hx : 0 ≤ x) (hxy : x ≤ y)
    (h : f64_round y = some ry) : ∃ rx, f64_round x = some rx ∧ 0 ≤ rx ∧ rx ≤ ry := by
  unfold f64_round at h
  split_ifs at h with hlt
  simp only [Option.some.injEq] at h
  have h0 := f64_nearest_nonneg hx
  have h1 := f64_nearest_mono hx hxy
  have h2 : f64_nearest y < 2 ^ 1024 := lt_of_le_of_lt (le_abs_self _) hlt
  refine ⟨f64_nearest x, ?_, h0, by rw [← h]; exact h1⟩
  unfold f64_round
  rw [if_pos]
  rw [abs_of_nonneg h0]
  linarith

theorem interference_term_f64_mono (tj : TaskConfig) (hT : 0 < tj.period)
    (hC : 0 < tj.execution_time) {a b tb : ℚ} (ha : 0 ≤ a) (hab : a ≤ b)
    (h : interference_term_f64 b tj = some tb) :
    ∃ ta, interference_term_f64 a tj = some ta ∧ 0 ≤ ta ∧ ta ≤ tb := by
  unfold interference_term_f64 at h ⊢
  cases hq : f64_round (b / tj.period) with
  | none => simp [hq] at h
  | some qb =>
    simp only [hq] at h
    obtain ⟨qa, hqa, hqa0, hqab⟩ := f64_round_mono (div_nonneg ha hT.le)
      (div_le_div_of_nonneg_right hab hT.le) hq
    simp only [hqa]
    have hc0 : (0 : ℚ) ≤ (⌈qa⌉ : ℚ) := by exact_mod_cast Int.ceil_nonneg hqa0
    have hcab : (⌈qa⌉ : ℚ) ≤ (⌈qb⌉ : ℚ) := by exact_mod_cast Int.ceil_le_ceil hqab
    exact f64_round_mono (mul_nonneg hc0 hC.le) (mul_le_mul_of_nonneg_right hcab hC.le) h

theorem interference_f64_fold_mono {a b : ℚ} (ha : 0 ≤ a) (hab : a ≤ b) :
    ∀ (hp : List TaskConfig), (∀ c ∈ hp, 0 < c.execution_time ∧ 0 < c.period) →
      ∀ (acc1 acc2 : Option ℚ),
        (∀ y, acc2 = some y → ∃ x, acc1 = some x ∧ 0 ≤ x ∧ x ≤ y) →
        ∀ rb, hp.foldl (fun Ri tj => f64_add Ri (interference_term_f64 b tj)) acc2 = some rb →
          ∃ ra, hp.foldl (fun Ri tj => f64_add Ri (interference_term_f64 a tj)) acc1
              = some ra ∧ 0 ≤ ra ∧ ra ≤ rb := by
  intro hp
  induction hp with
  | nil =>
    intro _ acc1 acc2 hacc rb h
    exact hacc rb h
  | cons t ts ih =>
    intro hpos acc1 acc2 hacc rb h
    simp only [List.foldl_cons] at h ⊢
    have ht := hpos t (List.mem_cons_self _ _)
    refine ih (fun c hc => hpos c (List.mem_cons_of_mem _ hc)) _ _ ?_ rb h
    intro y hy
    cases hacc2 : acc2 with
    | none => simp [hacc2, f64_add] at hy
    | some a2 =>
      cases hterm : interference_term_f64 b t with
      | none => simp [hacc2, hterm, f64_add] at hy
      | some t2 =>
        simp only [hacc2, hterm, f64_add] at hy
        obtain ⟨a1, ha1, ha10, ha12⟩ := hacc a2 hacc2
        obtain ⟨t1, ht1, ht10, ht12⟩ := interference_term_f64_mono t ht.2 ht.1 ha hab hterm
        simp only [ha1, ht1, f64_add]
        exact f64_round_mono (add_nonneg ha10 ht10) (add_le_add ha12 ht12) hy

theorem interference_f64_mono (hp : List TaskConfig)
    (hpos : ∀ c ∈ hp, 0 < c.execution_time ∧ 0 < c.period) {C a b rb : ℚ} (hC : 0 ≤ C)
    (ha : 0 ≤ a) (hab : a ≤ b) (h : interference_f64 hp C b = some rb) :
    ∃ ra, interference_f64 hp C a = some ra ∧ 0 ≤ ra ∧ ra ≤ rb := by
  unfold interference_f64 at h ⊢
  refine interference_f64_fold_mono ha hab hp hpos (some C) (some C) ?_ rb h
  intro y hy
  simp only [Option.some.injEq] at hy
  exact ⟨C, rfl, hC, hy.le⟩

theorem interference_f64_zero (hp : List TaskConfig) {C : ℚ} (hC : is_f64 C) :
    interference_f64 hp C 0 = some C := by
  unfold interference_f64
  induction hp with
  | nil => rfl
  | cons t ts ih =>
    simp only [List.foldl_cons]
    have hterm : interference_term_f64 0 t = some 0 := by
      unfold interference_term_f64
      simp [f64_round_zero]
    rw [hterm]
    have hadd : f64_add (some C) (some 0) = some C := by
      simp only [f64_add, add_zero]
      exact hC
    rw [hadd]
    exact ih

theorem rta_iterate_f64_le_fixed (hp : List TaskConfig)
    (hpos : ∀ c ∈ hp, 0 < c.execution_time ∧ 0 < c.period) {C R : ℚ} (hC : 0 ≤ C)
    (hCf : is_f64 C) (hR : 0 ≤ R) (hfix : interference_f64 hp C R = some R) (n : Nat) :
    ∃ r, rta_iterate_f64 hp C n = some r ∧ 0 ≤ r ∧ r ≤ R := by
  induction n with
  | zero =>
    obtain ⟨r0, hr0, _, hle⟩ := interference_f64_mono hp hpos hC le_rfl hR hfix
    rw [interference_f64_zero hp hCf] at hr0
    simp only [Option.some.injEq] at hr0
    exact ⟨C, rfl, hC, by rw [hr0]; exact hle⟩
  | succ n ih =>
    obtain ⟨r, hr, hr0, hrR⟩ := ih
    obtain ⟨r1, hr1, hr10, hr1R⟩ := interference_f64_mono hp hpos hC hr0 hrR hfix
    exact ⟨r1, by simp [rta_iterate_f64, hr, hr1], hr10, hr1R⟩

theorem rta_iterate_f64_nonneg (hp : List TaskConfig)
    (hpos : ∀ c ∈ hp, 0 < c.execution_time ∧ 0 < c.period) {C : ℚ} (hC : 0 ≤ C) :
    ∀ (n : Nat) (r : ℚ), rta_iterate_f64 hp C n = some r → 0 ≤ r := by
  intro n
  induction n with
  | zero =>
    intro r h
    simp only [rta_iterate_f64, Option.some.injEq] at h
    rw [← h]; exact hC
  | succ n ih =>
    intro r h
    cases hn : rta_iterate_f64 hp C n with
    | none => simp [rta_iterate_f64, hn] at h
    | some r0 =>
      simp only [rta_iterate_f64, hn, Option.some_bind] at h
      obtain ⟨ra, hra, hra0, _⟩ := interference_f64_mono hp hpos hC (ih r0 hn) le_rfl h
      rw [h] at hra
      simp only [Option.some.injEq] at hra
      rw [hra]; exact hra0

theorem is_f64_of_take {S : List TaskConfig} (hS : ∀ c ∈ S, c.IsF64) (i : Nat) :
    ∀ c ∈ S.take i, 0 < c.execution_time ∧ 0 < c.period := fun c hc =>
  ⟨(hS c (List.mem_of_mem_take hc)).1.1, (hS c (List.mem_of_mem_take hc)).1.2.1⟩

/-- C2 (amended): when `response_time_analysis`, computing in `double`, returns 0, some
index `i` of the deadline-sorted candidate set has an iterate of `R⁽⁰⁾ = C_i`,
`R⁽ⁿ⁺¹⁾ = C_i + Σ_{j<i} ⌈R⁽ⁿ⁾ / T_j⌉ · C_j`, evaluated as the code does (every division,
product and sum rounded to nearest), above `D_i`; no iterate at which this computation
is stationary lies at or below `D_i`, and every `R ≥ 0` with
`R = C_i + Σ_{j<i} ⌈R / T_j⌉ · C_j` in that arithmetic is above `D_i`. In scenario S2
(`A 400 500 500`, `B 400 500 500`, commands `1 A`, `1 B`) A is activated and B is
rejected with -1. -/
theorem rta_f64_reject_exceeds (fuel : Nat) (task_list : List Task) (new_task : TaskConfig)
    (h : response_time_analysis_f64 fuel task_list new_task = some 0) :
    (∃ S : List TaskConfig, S = qsort compare_tasks (active_configs task_list ++ [new_task]) ∧
      ∃ (i : Nat) (hi : i < S.length),
        (∃ n, exceeds (rta_iterate_f64 (S.take i) S[i].execution_time n) S[i].deadline) ∧
        (∀ (m : Nat) (r : ℚ), rta_iterate_f64 (S.take i) S[i].execution_time m = some r →
          rta_iterate_f64 (S.take i) S[i].execution_time (m + 1) = some r →
          S[i].deadline < r) ∧
        ∀ R : ℚ, 0 ≤ R → interference_f64 (S.take i) S[i].execution_time R = some R →
          S[i].deadline < R) ∧
    run_f64 5 catalog_S2 initial_task_list [Command.activate "A", Command.activate "B"]
      = some ([some 1, some (-1)], table_S2) := by
  obtain ⟨hguard, hfor⟩ := response_time_analysis_f64_eq h
  refine ⟨⟨_, rfl, ?_⟩, by decide!⟩
  have hS : ∀ c ∈ qsort compare_tasks (active_configs task_list ++ [new_task]), c.IsF64 :=
    fun c hc => hguard c ((qsort_perm _).mem_iff.mp hc)
  obtain ⟨i, hi, hw⟩ := rta_for_f64_eq_zero fuel _ [] hfor
  simp only [List.nil_append] at hw
  obtain ⟨n, hn⟩ := rta_while_f64_false _ _ fuel 0 _ 0 rfl hw
  have hCi := (hS _ (List.getElem_mem hi)).1.1
  have hCf := (hS _ (List.getElem_mem hi)).2.1
  have hhp := is_f64_of_take hS i
  have hno : ∀ R : ℚ, 0 ≤ R →
      interference_f64
          (List.take i (qsort compare_tasks (active_configs task_list ++ [new_task])))
          (qsort compare_tasks (active_configs task_list ++ [new_task]))[i].execution_time R
        = some R →
      (qsort compare_tasks (active_configs task_list ++ [new_task]))[i].deadline < R := by
    intro R hR hfix
    obtain ⟨r, hr, _, hrR⟩ := rta_iterate_f64_le_fixed _ hhp hCi.le hCf hR hfix n
    rw [hr] at hn
    exact lt_of_lt_of_le hn hrR
  refine ⟨i, hi, ⟨n, hn⟩, fun m r hm hm1 => ?_, hno⟩
  refine hno r (rta_iterate_f64_nonneg _ hhp hCi.le m r hm) ?_
  simpa [rta_iterate_f64, hm] using hm1

/-- C2 witness: the rejection of B in scenario S2. -/
theorem rta_f64_reject_exceeds_witness :
    response_time_analysis_f64 5 table_S2 ⟨"B", 400, 500, 500⟩ = some 0 ∧
    ((∃ S : List TaskConfig,
      S = qsort compare_tasks (active_configs table_S2 ++ [⟨"B", 400, 500, 500⟩]) ∧
      ∃ (i : Nat) (hi : i < S.length),
        (∃ n, exceeds (rta_iterate_f64 (S.take i) S[i].execution_time n) S[i].deadline) ∧
        (∀ (m : Nat) (r : ℚ), rta_iterate_f64 (S.take i) S[i].execution_time m = some r →
          rta_iterate_f64 (S.take i) S[i].execution_time (m + 1) = some r →
          S[i].deadline < r) ∧
        ∀ R : ℚ, 0 ≤ R → interference_f64 (S.take i) S[i].execution_time R = some R →
          S[i].deadline < R) ∧
    run_f64 5 catalog_S2 initial_task_list [Command.activate "A", Command.activate "B"]
      = some ([some 1, some (-1)], table_S2)) :=
  ⟨by decide!, rta_f64_reject_exceeds 5 table_S2 ⟨"B", 400, 500, 500⟩ (by decide!)⟩

/-- C2 (as stated) fails: with catalog `A 1.6 2.6 4.6`, `B 2.4 5.9 7.2` and commands `1 A`,
`1 B` all parameters are positive and B is rejected with -1, the rounded sum
`2.4 + 3 · 1.6` being just above the `double` 7.2; yet, the parameters taken as exact
numbers, at every index `i` of the sorted candidate set the recurrence has a fixed point
`R` with `C_i ≤ R ≤ D_i`, and no iterate exceeds `D_i`. -/
theorem rta_f64_rejects_with_fixed_point :
    (∀ c ∈ active_configs table_tenths
        ++ [⟨"B", of_decimal (12 / 5), of_decimal (59 / 10), of_decimal (36 / 5)⟩],
      c.Positive) ∧
    run_f64 9 catalog_tenths initial_task_list [Command.activate "A", Command.activate "B"]
      = some ([some 1, some (-1)], table_tenths) ∧
    response_time_analysis_f64 9 table_tenths
        ⟨"B", of_decimal (12 / 5), of_decimal (59 / 10), of_decimal (36 / 5)⟩ = some 0 ∧
    ∃ S : List TaskConfig,
      S = qsort compare_tasks (active_configs table_tenths
        ++ [⟨"B", of_decimal (12 / 5), of_decimal (59 / 10), of_decimal (36 / 5)⟩]) ∧
      ∀ (i : Nat) (hi : i < S.length),
        (∃ R : ℚ, S[i].execution_time ≤ R ∧
          R = S[i].execution_time
            + ((S.take i).map (fun tj => (⌈R / tj.period⌉ : ℚ) * tj.execution_time)).sum ∧
          R ≤ S[i].deadline) ∧
        ∀ n, rta_iterate (S.take i) S[i].execution_time n ≤ S[i].deadline := by
  refine ⟨by decide!, by decide!, by decide!,
    [⟨"A", of_decimal (8 / 5), of_decimal (13 / 5), of_decimal (23 / 5)⟩,
      ⟨"B", of_decimal (12 / 5), of_decimal (59 / 10), of_decimal (36 / 5)⟩],
    by decide!, ?_⟩
  intro i hi
  match i, hi with
  | 0, _ =>
    have hfix : of_decimal (8 / 5) = rta_rhs [] (of_decimal (8 / 5)) (of_decimal (8 / 5)) := by
      decide!
    have hle : of_decimal (8 / 5) ≤ of_decimal (23 / 5) := by decide!
    exact ⟨⟨of_decimal (8 / 5), le_refl _, hfix, hle⟩,
      fun n => le_trans
        (rta_iterate_le_fixed [] (by decide) _ _ (by decide!) hfix n) hle⟩
  | 1, _ =>
    have hfix : of_decimal (36 / 5)
        = rta_rhs [⟨"A", of_decimal (8 / 5), of_decimal (13 / 5), of_decimal (23 / 5)⟩]
            (of_decimal (12 / 5)) (of_decimal (36 / 5)) := by
      decide!
    have hge : of_decimal (12 / 5) ≤ of_decimal (36 / 5) := by decide!
    exact ⟨⟨of_decimal (36 / 5), hge, hfix, le_refl _⟩,
      fun n => le_trans
        (rta_iterate_le_fixed
          [⟨"A", of_decimal (8 / 5), of_decimal (13 / 5), of_decimal (23 / 5)⟩] (by decide!)
          _ _ (by decide!) hfix n) (le_refl _)⟩

/-! ## The task table -/

theorem insert_task_some (task_name : String) (config : TaskConfig) :
    ∀ (task_list task_list1 : List Task),
      insert_task task_name config task_list = some task_list1 →
      ∃ (i : Nat) (hi : i < task_list.length), task_list[i].active = 0 ∧
        (∀ (j : Nat) (hj : j < task_list.length), j < i → task_list[j].active ≠ 0) ∧
        task_list1 = task_list.set i ⟨task_name, 1, config⟩ := by
  intro task_list
  induction task_list with
  | nil => intro _ h; simp [insert_task] at h
  | cons t ts ih =>
    intro tl1 h
    rw [insert_task] at h
    by_cases h0 : t.active = 0
    · simp only [h0, if_true, Option.some.injEq] at h
      exact ⟨0, by simp, by simpa using h0, fun j _ hj => absurd hj (Nat.not_lt_zero j),
        by simp [← h]⟩
    · simp only [h0, if_false, Option.map_eq_some'] at h
      obtain ⟨ts1, hts, rfl⟩ := h
      obtain ⟨i, hi, ha, hbefore, hset⟩ := ih ts1 hts
      refine ⟨i + 1, by simpa using hi, by simpa using ha, ?_, by simp [hset]⟩
      intro j hj hji
      cases j with
      | zero => simpa using h0
      | succ k => simpa using hbefore k (by simpa using hj) (by omega)

theorem insert_task_none (task_name : String) (config : TaskConfig) :
    ∀ (task_list : List Task), insert_task task_name config task_list = none →
      ∀ t ∈ task_list, t.active ≠ 0 := by
  intro task_list
  induction task_list with
  | nil => intro _ t ht; simp at ht
  | cons t ts ih =>
    intro h
    rw [insert_task] at h
    by_cases h0 : t.active = 0
    · simp [h0] at h
    · simp only [h0, if_false, Option.map_eq_none'] at h
      intro u hu
      rcases List.mem_cons.mp hu with rfl | hu
      · exact h0
      · exact ih h u hu

theorem active_configs_length (task_list : List Task)
    (hflag : ∀ t ∈ task_list, t.active = 0 ∨ t.active = 1) :
    (active_configs task_list).length = count_active task_list := by
  unfold active_configs count_active
  rw [List.length_map, ← List.countP_eq_length_filter]
  apply List.countP_congr
  intro t ht
  rcases hflag t ht with h | h <;> simp [h]

theorem count_active_le (task_list : List Task) : count_active task_list ≤ task_list.length :=
  List.countP_le_length _

theorem exists_free_slot (task_list : List Task)
    (hflag : ∀ t ∈ task_list, t.active = 0 ∨ t.active = 1)
    (hlt : count_active task_list < task_list.length) : ∃ t ∈ task_list, t.active = 0 := by
  by_contra hcon
  push_neg at hcon
  have hall : ∀ t ∈ task_list, (fun t : Task => decide (t.active = 1)) t = true := by
    intro t ht
    rcases hflag t ht with h | h
    · exact absurd h (hcon t ht)
    · simpa using h
  have := List.countP_eq_length.mpr hall
  unfold count_active at hlt
  omega

theorem deactivate_task_length (task_name : String) (task_list : List Task) :
    (deactivate_task task_name task_list).length = task_list.length := by
  simp [deactivate_task]

theorem deactivate_task_mem {task_name : String} {task_list : List Task} {t : Task}
    (ht : t ∈ deactivate_task task_name task_list) :
    ∃ u ∈ task_list, t.task_name = u.task_name ∧ t.config = u.config ∧
      (t.active = u.active ∨ t.active = 0) := by
  unfold deactivate_task at ht
  obtain ⟨u, hu, rfl⟩ := List.mem_map.mp ht
  refine ⟨u, hu, ?_⟩
  split_ifs <;> simp

theorem find_config_mem {predefined_tasks : List TaskConfig} {task_name : String}
    {config : TaskConfig} (h : find_config predefined_tasks task_name = some config) :
    config ∈ predefined_tasks ∧ config.task_name = task_name := by
  unfold find_config at h
  exact ⟨List.mem_of_find?_eq_some h, by simpa using List.find?_some h⟩

/-- Invariant of the reachable task tables. -/
theorem reachable_invariant (predefined_tasks : List TaskConfig) (task_list : List Task)
    (h : Reachable predefined_tasks task_list) :
    task_list.length = MAX_THREADS ∧ (∀ t ∈ task_list, t.active = 0 ∨ t.active = 1) ∧
      ∀ t ∈ task_list, t.active ≠ 0 → t.config ∈ predefined_tasks := by
  induction h with
  | init =>
    refine ⟨by simp [initial_task_list], ?_, ?_⟩
    · intro t ht
      rw [initial_task_list, List.mem_replicate] at ht
      left; rw [ht.2]; rfl
    · intro t ht hne
      rw [initial_task_list, List.mem_replicate] at ht
      exact absurd (by rw [ht.2]; rfl) hne
  | @activate tl tl1 fuel name status _ hact ih =>
    obtain ⟨hlen, hflag, hcfg⟩ := ih
    unfold activate_task at hact
    split at hact
    · simp only [Option.some.injEq, Prod.mk.injEq] at hact
      rw [← hact.2]; exact ⟨hlen, hflag, hcfg⟩
    · rename_i config hfind
      split_ifs at hact with hfull
      · simp only [Option.some.injEq, Prod.mk.injEq] at hact
        rw [← hact.2]; exact ⟨hlen, hflag, hcfg⟩
      · split at hact
        · simp at hact
        · split_ifs at hact with hr
          · simp only [Option.some.injEq, Prod.mk.injEq] at hact
            rw [← hact.2]; exact ⟨hlen, hflag, hcfg⟩
          · split at hact
            · rename_i tl2 hins
              simp only [Option.some.injEq, Prod.mk.injEq] at hact
              rw [← hact.2]
              obtain ⟨i, hi, _, _, hset⟩ := insert_task_some _ _ _ _ hins
              subst hset
              refine ⟨by simpa using hlen, ?_, ?_⟩
              · intro t ht
                rcases List.mem_or_eq_of_mem_set ht with h | h
                · exact hflag t h
                · right; rw [h]
              · intro t ht hne
                rcases List.mem_or_eq_of_mem_set ht with h | h
                · exact hcfg t h hne
                · rw [h]; exact (find_config_mem hfind).1
            · simp only [Option.some.injEq, Prod.mk.injEq] at hact
              rw [← hact.2]; exact ⟨hlen, hflag, hcfg⟩
  | @deactivate tl name _ ih =>
    obtain ⟨hlen, hflag, hcfg⟩ := ih
    refine ⟨by rw [deactivate_task_length]; exact hlen, ?_, ?_⟩
    · intro t ht
      obtain ⟨u, hu, _, _, ha⟩ := deactivate_task_mem ht
      rcases ha with ha | ha
      · rw [ha]; exact hflag u hu
      · exact Or.inl ha
    · intro t ht hne
      obtain ⟨u, hu, _, hc, ha⟩ := deactivate_task_mem ht
      rcases ha with ha | ha
      · rw [hc]; exact hcfg u hu (by rwa [← ha])
      · exact absurd ha hne

theorem run_reachable (fuel : Nat) (predefined_tasks : List TaskConfig) :
    ∀ (cmds : List Command) (task_list : List Task) (r : List (Option Int) × List Task),
      Reachable predefined_tasks task_list →
      run fuel predefined_tasks task_list cmds = some r → Reachable predefined_tasks r.2 := by
  intro cmds
  induction cmds with
  | nil =>
    intro tl r hreach h
    simp only [run, Option.some.injEq] at h
    rw [← h]; exact hreach
  | cons c cs ih =>
    intro tl r hreach h
    cases c with
    | activate name =>
      rw [run] at h
      split at h
      · simp at h
      · rename_i status tl1 hact
        simp only [Option.map_eq_some'] at h
        obtain ⟨r1, hr1, rfl⟩ := h
        exact ih tl1 r1 (Reachable.activate fuel name status hreach hact) hr1
    | deactivate name =>
      rw [run] at h
      simp only [Option.map_eq_some'] at h
      obtain ⟨r1, hr1, rfl⟩ := h
      exact ih _ r1 (Reachable.deactivate name hreach) hr1

/-- C4: in every task table reached by sequential `activate_task` / `deactivate_task`
calls from the zero-initialised table at most `MAX_THREADS = 10` slots have
`active == 1`, with every call of such a run; `activate_task` on a catalog name with
all ten slots active returns -3 (Full) and leaves the table as it is; and with catalog
`Q 50 1000 1000` fifteen activations give ten times 1 and then five times -3. -/
theorem active_count_bounded (predefined_tasks : List TaskConfig) (task_list : List Task)
    (hreach : Reachable predefined_tasks task_list) :
    MAX_THREADS = 10 ∧ count_active task_list ≤ MAX_THREADS ∧
    (∀ (fuel : Nat) (cmds : List Command) (r : List (Option Int) × List Task),
      run fuel predefined_tasks task_list cmds = some r → count_active r.2 ≤ MAX_THREADS) ∧
    (∀ (fuel : Nat) (task_name : String) (config : TaskConfig),
      find_config predefined_tasks task_name = some config →
      count_active task_list = MAX_THREADS →
      activate_task fuel predefined_tasks task_list task_name = some (some (-3), task_list)) ∧
    (run 2 catalog_S5 initial_task_list (List.replicate 15 (Command.activate "Q"))).map
        (fun r => r.1)
      = some (List.replicate 10 (some 1) ++ List.replicate 5 (some (-3))) := by
  have hbound : ∀ tl, Reachable predefined_tasks tl → count_active tl ≤ MAX_THREADS := by
    intro tl h
    have := (reachable_invariant predefined_tasks tl h).1
    have := count_active_le tl
    omega
  refine ⟨rfl, hbound _ hreach, ?_, ?_, by decide!⟩
  · intro fuel cmds r hrun
    exact hbound _ (run_reachable fuel predefined_tasks cmds task_list r hreach hrun)
  · intro fuel name config hfind hfull
    simp [activate_task, hfind, hfull]

/-- C4 witness: the table of scenario S5 after ten activations of Q is reachable, holds
ten active slots, and the eleventh activation is refused with -3. -/
theorem active_count_bounded_witness :
    Reachable catalog_S5 table_S5 ∧ count_active table_S5 ≤ MAX_THREADS ∧
    activate_task 2 catalog_S5 table_S5 "Q" = some (some (-3), table_S5) :=
  have hreach : Reachable catalog_S5 table_S5 :=
    run_reachable 2 catalog_S5 (List.replicate 10 (Command.activate "Q"))
      initial_task_list (List.replicate 10 (some 1), table_S5) Reachable.init (by decide!)
  ⟨hreach, (active_count_bounded catalog_S5 table_S5 hreach).2.1,
    (active_count_bounded catalog_S5 table_S5 hreach).2.2.2.1 2 "Q" ⟨"Q", 50, 1000, 1000⟩
      (by decide!) (by decide!)⟩

/-- C5: after `deactivate_task(name)` no slot named `name` has `active == 1` (every
matching active slot is cleared, whatever its index), a slot with another name is
left as it was, and a slot named `name` keeps its name and parameters. In scenario S3
(`1 Z`, `1 Z`, `0 Z`) both instances of Z end inactive. -/
theorem deactivate_task_frame (task_name : String) (task_list : List Task) :
    (deactivate_task task_name task_list).length = task_list.length ∧
    (∀ t ∈ deactivate_task task_name task_list, t.task_name = task_name → t.active ≠ 1) ∧
    (∀ (i : Nat) (t : Task), task_list[i]? = some t → t.task_name ≠ task_name →
      (deactivate_task task_name task_list)[i]? = some t) ∧
    (∀ (i : Nat) (t : Task), task_list[i]? = some t → t.task_name = task_name →
      (deactivate_task task_name task_list)[i]?
        = some ⟨t.task_name, if t.active = 1 then 0 else t.active, t.config⟩) ∧
    run 2 catalog_S3 initial_task_list
        [Command.activate "Z", Command.activate "Z", Command.deactivate "Z"]
      = some ([some 1, some 1, some 0],
          ⟨"Z", 0, ⟨"Z", 100, 1000, 1000⟩⟩ :: ⟨"Z", 0, ⟨"Z", 100, 1000, 1000⟩⟩
            :: List.replicate 8 zero_task) := by
  refine ⟨deactivate_task_length _ _, ?_, ?_, ?_, by decide!⟩
  · intro t ht hname
    unfold deactivate_task at ht
    obtain ⟨u, _, rfl⟩ := List.mem_map.mp ht
    by_cases hc : u.active = 1 ∧ u.task_name = task_name
    · simp [hc]
    · simp only [hc, if_false] at hname ⊢
      exact fun h1 => hc ⟨h1, hname⟩
  · intro i t hget hname
    simp [deactivate_task, List.getElem?_map, hget, hname]
  · intro i t hget hname
    subst hname
    simp only [deactivate_task, List.getElem?_map, hget, Option.map_some', and_true]
    by_cases h1 : t.active = 1
    · simp [h1]
    · simp [h1]

/-- C5 witness: deactivating Z in a table with two active instances of Z and one of A. -/
theorem deactivate_task_frame_witness :
    (∀ t ∈ deactivate_task "Z"
        [⟨"Z", 1, ⟨"Z", 100, 1000, 1000⟩⟩, ⟨"A", 1, ⟨"A", 100, 500, 500⟩⟩,
          ⟨"Z", 1, ⟨"Z", 100, 1000, 1000⟩⟩],
      t.task_name = "Z" → t.active ≠ 1) ∧
    (deactivate_task "Z"
        [⟨"Z", 1, ⟨"Z", 100, 1000, 1000⟩⟩, ⟨"A", 1, ⟨"A", 100, 500, 500⟩⟩,
          ⟨"Z", 1, ⟨"Z", 100, 1000, 1000⟩⟩])[1]?
      = some ⟨"A", 1, ⟨"A", 100, 500, 500⟩⟩ :=
  ⟨(deactivate_task_frame "Z" _).2.1,
    (deactivate_task_frame "Z" _).2.2.1 1 ⟨"A", 1, ⟨"A", 100, 500, 500⟩⟩ (by decide!)
      (by decide!)⟩

/-! ## Activation on a reachable table -/

theorem insert_task_of_room (task_name : String) (config : TaskConfig) (task_list : List Task)
    (hflag : ∀ t ∈ task_list, t.active = 0 ∨ t.active = 1)
    (hlt : count_active task_list < task_list.length) :
    ∃ (i : Nat) (hi : i < task_list.length), task_list[i].active = 0 ∧
      (∀ (j : Nat) (hj : j < task_list.length), j < i → task_list[j].active ≠ 0) ∧
      insert_task task_name config task_list
        = some (task_list.set i ⟨task_name, 1, config⟩) := by
  cases hins : insert_task task_name config task_list with
  | none =>
    obtain ⟨t, ht, h0⟩ := exists_free_slot task_list hflag hlt
    exact absurd h0 (insert_task_none _ _ _ hins t ht)
  | some tl1 =>
    obtain ⟨i, hi, h0, hbefore, hset⟩ := insert_task_some _ _ _ _ hins
    exact ⟨i, hi, h0, hbefore, by rw [hset]⟩

theorem response_time_analysis_returns (task_list : List Task) (new_task : TaskConfig)
    (hroom : (active_configs task_list).length < MAX_THREADS)
    (hpos : ∀ c ∈ active_configs task_list ++ [new_task], c.Positive) :
    ∃ N r, (r = 0 ∨ r = 1) ∧
      ∀ fuel, N ≤ fuel → response_time_analysis fuel task_list new_task = some r := by
  have hS : ∀ c ∈ [] ++ qsort compare_tasks (active_configs task_list ++ [new_task]),
      c.Positive := fun c hc => hpos c ((qsort_perm _).mem_iff.mp (by simpa using hc))
  obtain ⟨N, r, hr, hfor⟩ := rta_for_returns _ [] hS
  refine ⟨N, r, hr, fun fuel hle => ?_⟩
  unfold response_time_analysis
  simp only [not_le.mpr hroom, if_false]
  exact hfor fuel hle

theorem active_configs_positive (predefined_tasks : List TaskConfig) (task_list : List Task)
    (hcfg : ∀ t ∈ task_list, t.active ≠ 0 → t.config ∈ predefined_tasks)
    (hcat : ∀ c ∈ predefined_tasks, c.Positive) (config : TaskConfig)
    (hconfig : config ∈ predefined_tasks) :
    ∀ c ∈ active_configs task_list ++ [config], c.Positive := by
  intro c hc
  rcases List.mem_append.mp hc with h | h
  · unfold active_configs at h
    obtain ⟨t, ht, rfl⟩ := List.mem_map.mp h
    have ht2 := List.mem_filter.mp ht
    exact hcat _ (hcfg t ht2.1 (by simpa using ht2.2))
  · rw [List.mem_singleton.mp h]
    exact hcat _ hconfig

theorem activate_task_status (fuel : Nat) (predefined_tasks : List TaskConfig)
    (task_list : List Task) (task_name : String) (status : Int) (task_list1 : List Task)
    (h : activate_task fuel predefined_tasks task_list task_name
      = some (some status, task_list1)) :
    (status = 1 ∨ status = -1 ∨ status = -2 ∨ status = -3) ∧
      (status = -2 ↔ find_config predefined_tasks task_name = none) := by
  unfold activate_task at h
  split at h
  · rename_i hfind
    simp only [Option.some.injEq, Prod.mk.injEq] at h
    simp [← h.1, hfind]
  · rename_i config hfind
    split_ifs at h with hfull
    · simp only [Option.some.injEq, Prod.mk.injEq] at h
      simp [← h.1, hfind]
    · split at h
      · simp at h
      · split_ifs at h with hr
        · simp only [Option.some.injEq, Prod.mk.injEq] at h
          simp [← h.1, hfind]
        · split at h
          · simp only [Option.some.injEq, Prod.mk.injEq] at h
            simp [← h.1, hfind]
          · simp at h

theorem activate_task_returns (predefined_tasks : List TaskConfig) (task_list : List Task)
    (hreach : Reachable predefined_tasks task_list)
    (hcat : ∀ c ∈ predefined_tasks, c.Positive) (task_name : String) :
    ∃ (N : Nat) (status : Int) (task_list1 : List Task), ∀ fuel, N ≤ fuel →
      activate_task fuel predefined_tasks task_list task_name
        = some (some status, task_list1) := by
  obtain ⟨hlen, hflag, hcfg⟩ := reachable_invariant _ _ hreach
  cases hfind : find_config predefined_tasks task_name with
  | none => exact ⟨0, -2, task_list, fun fuel _ => by simp [activate_task, hfind]⟩
  | some config =>
    by_cases hfull : count_active task_list = MAX_THREADS
    · exact ⟨0, -3, task_list, fun fuel _ => by simp [activate_task, hfind, hfull]⟩
    · have hlt : count_active task_list < task_list.length := by
        have := count_active_le task_list
        omega
      have hroom : (active_configs task_list).length < MAX_THREADS := by
        rw [active_configs_length _ hflag]; omega
      obtain ⟨N, r, hr, hrta⟩ := response_time_analysis_returns task_list config hroom
        (active_configs_positive _ _ hcfg hcat config (find_config_mem hfind).1)
      rcases hr with rfl | rfl
      · exact ⟨N, -1, task_list, fun fuel hle => by
          simp [activate_task, hfind, hfull, hrta fuel hle]⟩
      · obtain ⟨i, hi, _, _, hins⟩ := insert_task_of_room task_name config task_list hflag hlt
        exact ⟨N, 1, task_list.set i ⟨task_name, 1, config⟩, fun fuel hle => by
          simp [activate_task, hfind, hfull, hrta fuel hle, hins]⟩

theorem handle_command_defined (predefined_tasks : List TaskConfig) (task_list : List Task)
    (hreach : Reachable predefined_tasks task_list)
    (hcat : ∀ c ∈ predefined_tasks, c.Positive) (command : String)
    (hdef : sscanf_d_s (c_string command) ≠ ScanResult.undefined) :
    ∃ (N : Nat) (task_list1 : List Task) (reply : String),
      ∀ (fuel : Nat) (response : String), N ≤ fuel →
        handle_command fuel predefined_tasks task_list response command
          = some (task_list1, reply) := by
  cases hscan : sscanf_d_s (c_string command) with
  | undefined => exact absurd hscan hdef
  | mismatch =>
    exact ⟨0, task_list, snprintf 256 "[SERVER]: Invalid command format",
      fun fuel response _ => by simp only [handle_command, hscan]⟩
  | assigned action name =>
    by_cases h1 : action = 1
    · obtain ⟨N, status, tl1, hact⟩ := activate_task_returns _ _ hreach hcat name
      have hst := (activate_task_status N _ _ _ status tl1 (hact N le_rfl)).1
      rcases hst with rfl | rfl | rfl | rfl
      · exact ⟨N, tl1, snprintf 256 ("[SERVER]: Task " ++ name ++ " activated"),
          fun fuel response hle => by
            simp only [handle_command, hscan, h1, hact fuel hle]; simp⟩
      · exact ⟨N, tl1, snprintf 256
            ("[SERVER]: Task " ++ name ++ " cannot be scheduled (System overloaded)"),
          fun fuel response hle => by
            simp only [handle_command, hscan, h1, hact fuel hle]; simp⟩
      · exact ⟨N, tl1, snprintf 256 ("[SERVER]: Task " ++ name ++ " not found"),
          fun fuel response hle => by
            simp only [handle_command, hscan, h1, hact fuel hle]; simp⟩
      · exact ⟨N, tl1, snprintf 256
            ("[SERVER]: Maximum tasks reached, cannot activate " ++ name),
          fun fuel response hle => by
            simp only [handle_command, hscan, h1, hact fuel hle]; simp⟩
    · by_cases h0 : action = 0
      · exact ⟨0, deactivate_task name task_list,
          snprintf 256 ("[SERVER]: Task " ++ name ++ " deactivated"),
          fun fuel response _ => by simp only [handle_command, hscan, h0]; simp⟩
      · exact ⟨0, task_list, snprintf 256 "[SERVER]: Invalid action",
          fun fuel response _ => by simp only [handle_command, hscan, h1, h0, if_false]⟩

/-- C10: in a task table reached by sequential `activate_task` / `deactivate_task` calls
from the zero-initialised table every `active` flag is 0 or 1. Hence, when the
capacity check and the response time analysis pass, `activate_task` returns 1 and
the table afterwards is the old one with the lowest-index slot of `active == 0` set
to the requested name, `active = 1` and the catalog parameters; every value
`activate_task` returns is 1, -1, -2 or -3 (the end of the function is not reached);
with a catalog of positive parameters it does return (given enough iterations) and
`handle_command` produces a reply; and a reply of `handle_command` is always written
anew, whatever `response` held. -/
theorem activate_task_fills_free_slot (predefined_tasks : List TaskConfig)
    (task_list : List Task) (hreach : Reachable predefined_tasks task_list) :
    (∀ t ∈ task_list, t.active = 0 ∨ t.active = 1) ∧
    (∀ (fuel : Nat) (task_name : String) (config : TaskConfig) (r : Int),
      find_config predefined_tasks task_name = some config →
      count_active task_list ≠ MAX_THREADS →
      response_time_analysis fuel task_list config = some r → r ≠ 0 →
      ∃ (i : Nat) (hi : i < task_list.length), task_list[i].active = 0 ∧
        (∀ (j : Nat) (hj : j < task_list.length), j < i → task_list[j].active ≠ 0) ∧
        activate_task fuel predefined_tasks task_list task_name
          = some (some 1, task_list.set i ⟨task_name, 1, config⟩)) ∧
    (∀ (fuel : Nat) (task_name : String) (status : Option Int) (task_list1 : List Task),
      activate_task fuel predefined_tasks task_list task_name = some (status, task_list1) →
      status = some 1 ∨ status = some (-1) ∨ status = some (-2) ∨ status = some (-3)) ∧
    ((∀ c ∈ predefined_tasks, c.Positive) →
      (∀ task_name : String, ∃ (N : Nat) (status : Int) (task_list1 : List Task),
        (status = 1 ∨ status = -1 ∨ status = -2 ∨ status = -3) ∧
        ∀ fuel, N ≤ fuel →
          activate_task fuel predefined_tasks task_list task_name
            = some (some status, task_list1)) ∧
      (∀ command : String,
        sscanf_d_s (c_string command) ≠ ScanResult.undefined →
        ∃ (N : Nat) (task_list1 : List Task) (reply : String),
          ∀ (fuel : Nat) (response : String), N ≤ fuel →
            handle_command fuel predefined_tasks task_list response command
              = some (task_list1, reply))) ∧
    (∀ (fuel : Nat) (response response1 command reply : String) (task_list1 : List Task),
      handle_command fuel predefined_tasks task_list response command
        = some (task_list1, reply) →
      handle_command fuel predefined_tasks task_list response1 command
        = some (task_list1, reply)) := by
  obtain ⟨hlen, hflag, hcfg⟩ := reachable_invariant _ _ hreach
  have hroom : count_active task_list ≠ MAX_THREADS →
      count_active task_list < task_list.length := by
    intro hne
    have := count_active_le task_list
    omega
  refine ⟨hflag, ?_, ?_, fun hcat => ⟨?_, ?_⟩, ?_⟩
  · intro fuel name config r hfind hfull hrta hr
    obtain ⟨i, hi, h0, hbefore, hins⟩ :=
      insert_task_of_room name config task_list hflag (hroom hfull)
    exact ⟨i, hi, h0, hbefore, by simp [activate_task, hfind, hfull, hrta, hr, hins]⟩
  · intro fuel name status tl1 hact
    cases status with
    | some s =>
      have := (activate_task_status fuel _ _ _ s tl1 hact).1
      simpa using this
    | none =>
      exfalso
      unfold activate_task at hact
      split at hact
      · simp at hact
      · rename_i config hfind
        split_ifs at hact with hfull
        · simp at hact
        · split at hact
          · simp at hact
          · split_ifs at hact with hr
            · simp at hact
            · split at hact
              · simp at hact
              · rename_i hins
                obtain ⟨i, hi, _, _, hins2⟩ :=
                  insert_task_of_room name config task_list hflag (hroom hfull)
                rw [hins2] at hins
                simp at hins
  · intro name
    obtain ⟨N, status, tl1, hact⟩ := activate_task_returns _ _ hreach hcat name
    exact ⟨N, status, tl1, (activate_task_status N _ _ _ status tl1 (hact N le_rfl)).1, hact⟩
  · exact fun command hdef => handle_command_defined _ _ hreach hcat command hdef
  · intro fuel response response1 command reply tl1 h
    unfold handle_command at h ⊢
    split at h
    · simp at h
    · exact h
    · rename_i action name hscan
      by_cases h1 : action = 1
      · simp only [h1, if_true] at h ⊢
        split at h
        · simp at h
        · simp at h
        · rename_i status tl2 hact
          have hst := (activate_task_status fuel _ _ _ status tl2 hact).1
          rcases hst with rfl | rfl | rfl | rfl <;> exact h
      · simp only [h1, if_false] at h ⊢
        exact h

/-- C10 witness: on the zero-initialised table with the catalog of scenario S2, the
activation of A fills slot 0, and every activation returns one of the four values. -/
theorem activate_task_fills_free_slot_witness :
    Reachable catalog_S2 initial_task_list ∧
    (∃ (i : Nat) (hi : i < initial_task_list.length), initial_task_list[i].active = 0 ∧
      (∀ (j : Nat) (hj : j < initial_task_list.length), j < i →
        initial_task_list[j].active ≠ 0) ∧
      activate_task 3 catalog_S2 initial_task_list "A"
        = some (some 1, initial_task_list.set i ⟨"A", 1, ⟨"A", 400, 500, 500⟩⟩)) ∧
    (∀ task_name : String, ∃ (N : Nat) (status : Int) (task_list1 : List Task),
      (status = 1 ∨ status = -1 ∨ status = -2 ∨ status = -3) ∧
      ∀ fuel, N ≤ fuel →
        activate_task fuel catalog_S2 initial_task_list task_name
          = some (some status, task_list1)) ∧
    ∃ (N : Nat) (task_list1 : List Task) (reply : String),
      ∀ (fuel : Nat) (response : String), N ≤ fuel →
        handle_command fuel catalog_S2 initial_task_list response "1 A"
          = some (task_list1, reply) :=
  ⟨Reachable.init,
    (activate_task_fills_free_slot catalog_S2 initial_task_list Reachable.init).2.1 3 "A"
      ⟨"A", 400, 500, 500⟩ 1 (by decide!) (by decide!) (by decide!) (by decide!),
    ((activate_task_fills_free_slot catalog_S2 initial_task_list Reachable.init).2.2.2.1
      (by decide!)).1,
    ((activate_task_fills_free_slot catalog_S2 initial_task_list Reachable.init).2.2.2.1
      (by decide!)).2 "1 A" (by decide!)⟩

/-! ## Replies -/

theorem snprintf_eq_self (text : String) (h : text.length ≤ 255) : snprintf 256 text = text := by
  unfold snprintf
  cases text with
  | mk cs =>
    simp only [String.length] at h
    show String.mk (cs.take 255) = String.mk cs
    rw [List.take_of_length_le h]

theorem sscanf_assigned {command : List Char} {action : Int} {task_name : String}
    (h : sscanf_d_s command = ScanResult.assigned action task_name) :
    ∃ rest, scan_int command = some (action, rest) ∧ task_name = String.mk (scan_word rest) ∧
      scan_word rest ≠ [] ∧ (scan_word rest).length ≤ 19 ∧
      -2147483648 ≤ action ∧ action ≤ 2147483647 := by
  unfold sscanf_d_s at h
  split at h
  · simp at h
  · rename_i v rest hint
    split_ifs at h with h1 h2 h3
    simp only [ScanResult.assigned.injEq] at h
    obtain ⟨rfl, rfl⟩ := h
    push_neg at h1
    exact ⟨rest, hint, rfl, h2, by omega, h1.1, h1.2⟩

theorem sscanf_name_length {command : List Char} {action : Int} {task_name : String}
    (h : sscanf_d_s command = ScanResult.assigned action task_name) :
    task_name.length ≤ 19 := by
  obtain ⟨rest, _, rfl, _, hlen, _⟩ := sscanf_assigned h
  exact hlen

theorem reply_fits (pre name post : String) (hfix : pre.length + post.length ≤ 236)
    (hlen : name.length ≤ 19) : snprintf 256 (pre ++ name ++ post) = pre ++ name ++ post := by
  apply snprintf_eq_self
  simp only [String.length_append]
  omega

theorem reply_fits_end (pre name : String) (hfix : pre.length ≤ 236)
    (hlen : name.length ≤ 19) : snprintf 256 (pre ++ name) = pre ++ name := by
  apply snprintf_eq_self
  simp only [String.length_append]
  omega

theorem find_config_none {predefined_tasks : List TaskConfig} {task_name : String}
    (h : find_config predefined_tasks task_name = none) :
    ∀ c ∈ predefined_tasks, c.task_name ≠ task_name := by
  unfold find_config at h
  intro c hc
  simpa using List.find?_eq_none.mp h c hc

/-- C6: the reply that `handleConnection` writes for a command is the string of the
response table. For a command parsed as `(1, name)` it is `Task <name> activated`,
`Task <name> cannot be scheduled (System overloaded)`, `Task <name> not found` (the
name is absent from the catalog) or `Maximum tasks reached, cannot activate <name>`,
as `activate_task` returns 1, -1, -2 or -3; for `(0, name)` it is
`Task <name> deactivated`; for another integer `Invalid action`; for a command that
does not parse `Invalid command format`, each after `[SERVER]: `. On a reachable
table with a catalog of positive parameters such a reply is produced. -/
theorem handle_command_reply (predefined_tasks : List TaskConfig) (task_list : List Task)
    (response command : String) :
    (∀ (fuel : Nat) (task_list1 : List Task) (reply : String),
      handle_command fuel predefined_tasks task_list response command
        = some (task_list1, reply) →
      (∀ name : String,
        sscanf_d_s (c_string command) = ScanResult.assigned 1 name →
        (activate_task fuel predefined_tasks task_list name = some (some 1, task_list1) ∧
          reply = "[SERVER]: Task " ++ name ++ " activated") ∨
        (activate_task fuel predefined_tasks task_list name = some (some (-1), task_list1) ∧
          reply = "[SERVER]: Task " ++ name ++ " cannot be scheduled (System overloaded)") ∨
        (activate_task fuel predefined_tasks task_list name = some (some (-2), task_list1) ∧
          (∀ c ∈ predefined_tasks, c.task_name ≠ name) ∧
          reply = "[SERVER]: Task " ++ name ++ " not found") ∨
        (activate_task fuel predefined_tasks task_list name = some (some (-3), task_list1) ∧
          reply = "[SERVER]: Maximum tasks reached, cannot activate " ++ name)) ∧
      (∀ name : String,
        sscanf_d_s (c_string command) = ScanResult.assigned 0 name →
        task_list1 = deactivate_task name task_list ∧
        reply = "[SERVER]: Task " ++ name ++ " deactivated") ∧
      (∀ (action : Int) (name : String),
        sscanf_d_s (c_string command) = ScanResult.assigned action name →
        action ≠ 1 → action ≠ 0 → reply = "[SERVER]: Invalid action") ∧
      (sscanf_d_s (c_string command) = ScanResult.mismatch →
        reply = "[SERVER]: Invalid command format")) ∧
    (Reachable predefined_tasks task_list → (∀ c ∈ predefined_tasks, c.Positive) →
      sscanf_d_s (c_string command) ≠ ScanResult.undefined →
      ∃ (N : Nat) (task_list1 : List Task) (reply : String), ∀ fuel, N ≤ fuel →
        handle_command fuel predefined_tasks task_list response command
          = some (task_list1, reply)) := by
  refine ⟨fun fuel tl1 reply h => ⟨?_, ?_, ?_, ?_⟩, fun hreach hcat hdef => ?_⟩
  · intro name hscan
    have hlen := sscanf_name_length hscan
    simp only [handle_command, hscan, if_true] at h
    split at h
    · simp at h
    · simp at h
    · rename_i status tl2 hact
      have hst := activate_task_status fuel _ _ _ status tl2 hact
      rcases hst.1 with rfl | rfl | rfl | rfl
      · simp only [if_true, Option.some.injEq, Prod.mk.injEq] at h
        rw [reply_fits _ _ _ (by decide) hlen] at h
        exact Or.inl ⟨by rw [hact, h.1], h.2.symm⟩
      · simp only [show ¬((-1 : Int) = 1) by decide, if_false, if_true, Option.some.injEq,
          Prod.mk.injEq] at h
        rw [reply_fits _ _ _ (by decide) hlen] at h
        exact Or.inr (Or.inl ⟨by rw [hact, h.1], h.2.symm⟩)
      · simp only [show ¬((-2 : Int) = 1) by decide, show ¬((-2 : Int) = -1) by decide,
          if_false, if_true, Option.some.injEq, Prod.mk.injEq] at h
        rw [reply_fits _ _ _ (by decide) hlen] at h
        exact Or.inr (Or.inr (Or.inl ⟨by rw [hact, h.1],
          find_config_none (hst.2.mp rfl), h.2.symm⟩))
      · simp only [show ¬((-3 : Int) = 1) by decide, show ¬((-3 : Int) = -1) by decide,
          show ¬((-3 : Int) = -2) by decide, if_false, if_true, Option.some.injEq,
          Prod.mk.injEq] at h
        rw [reply_fits_end _ _ (by decide) hlen] at h
        exact Or.inr (Or.inr (Or.inr ⟨by rw [hact, h.1], h.2.symm⟩))
  · intro name hscan
    have hlen := sscanf_name_length hscan
    simp only [handle_command, hscan, show ¬((0 : Int) = 1) by decide, if_false, if_true,
      Option.some.injEq, Prod.mk.injEq] at h
    rw [reply_fits _ _ _ (by decide) hlen] at h
    exact ⟨h.1.symm, h.2.symm⟩
  · intro action name hscan h1 h0
    simp only [handle_command, hscan, h1, h0, if_false, Option.some.injEq,
      Prod.mk.injEq] at h
    rw [snprintf_eq_self _ (by decide)] at h
    exact h.2.symm
  · intro hscan
    simp only [handle_command, hscan, Option.some.injEq, Prod.mk.injEq] at h
    rw [snprintf_eq_self _ (by decide)] at h
    exact h.2.symm
  · obtain ⟨N, tl1, reply, h⟩ := handle_command_defined _ _ hreach hcat command hdef
    exact ⟨N, tl1, reply, fun fuel hle => h fuel response hle⟩

/-- C6 witness: scenario S2, the reply to `1 B` while A is active. -/
theorem handle_command_reply_witness :
    handle_command 5 catalog_S2 table_S2 "" "1 B"
      = some (table_S2, "[SERVER]: Task B cannot be scheduled (System overloaded)") ∧
    ((activate_task 5 catalog_S2 table_S2 "B" = some (some 1, table_S2) ∧
        "[SERVER]: Task B cannot be scheduled (System overloaded)"
          = "[SERVER]: Task " ++ "B" ++ " activated") ∨
      (activate_task 5 catalog_S2 table_S2 "B" = some (some (-1), table_S2) ∧
        "[SERVER]: Task B cannot be scheduled (System overloaded)"
          = "[SERVER]: Task " ++ "B" ++ " cannot be scheduled (System overloaded)") ∨
      (activate_task 5 catalog_S2 table_S2 "B" = some (some (-2), table_S2) ∧
        (∀ c ∈ catalog_S2, c.task_name ≠ "B") ∧
        "[SERVER]: Task B cannot be scheduled (System overloaded)"
          = "[SERVER]: Task " ++ "B" ++ " not found") ∨
      (activate_task 5 catalog_S2 table_S2 "B" = some (some (-3), table_S2) ∧
        "[SERVER]: Task B cannot be scheduled (System overloaded)"
          = "[SERVER]: Maximum tasks reached, cannot activate " ++ "B")) ∧
    ∃ (N : Nat) (task_list1 : List Task) (reply : String), ∀ fuel, N ≤ fuel →
      handle_command fuel catalog_S2 table_S2 "" "1 B" = some (task_list1, reply) :=
  ⟨by decide!,
    ((handle_command_reply catalog_S2 table_S2 "" "1 B").1 5 table_S2
      "[SERVER]: Task B cannot be scheduled (System overloaded)" (by decide!)).1 "B"
      (by decide!),
    (handle_command_reply catalog_S2 table_S2 "" "1 B").2
      (run_reachable 5 catalog_S2 [Command.activate "A"] initial_task_list
        ([some 1], table_S2) Reachable.init (by decide!))
      (by decide!) (by decide!)⟩

/-! ## Framing -/

theorem ntohl_htonl (n : Nat) (h : n < 4294967296) : ntohl (htonl n) = n := by
  show ((n / 16777216 % 256 * 256 + n / 65536 % 256) * 256 + n / 256 % 256) * 256 + n % 256 = n
  omega

theorem htonl_length (n : Nat) : (htonl n).length = 4 := rfl

theorem bytes_str_bytes (s : String) : bytes_str (str_bytes s) = s := by
  cases s with
  | mk cs =>
    simp only [bytes_str, str_bytes, String.toList, List.map_map]
    congr 1
    conv_rhs => rw [← List.map_id cs]
    apply List.map_congr_left
    intro c _
    simp [Char.ofNat_toNat]

theorem str_bytes_length (s : String) : (str_bytes s).length = s.length := by
  show (s.data.map Char.toNat).length = s.data.length
  exact List.length_map _ _

theorem strlen_str_bytes (s : String) (hnul : Char.ofNat 0 ∉ s.toList) :
    strlen (str_bytes s) = s.length := by
  unfold strlen
  rw [List.takeWhile_eq_self_iff.mpr, str_bytes_length]
  intro b hb
  simp only [str_bytes, List.mem_map] at hb
  obtain ⟨c, hc, rfl⟩ := hb
  simp only [ne_eq, decide_eq_true_eq]
  intro h0
  apply hnul
  have : c = Char.ofNat 0 := by
    rw [← Char.ofNat_toNat c, h0]
  rwa [this] at hc

theorem send_frame_str (s : String) (hnul : Char.ofNat 0 ∉ s.toList)
    (hlen : s.length < 4294967296) :
    send_frame (str_bytes s) = htonl s.length ++ str_bytes s := by
  unfold send_frame
  rw [strlen_str_bytes s hnul, Nat.mod_eq_of_lt hlen, ← str_bytes_length s, List.take_length]

theorem receive_append (buf rest : List Nat) :
    receive (buf ++ rest) (buf.length : Int) = some (buf, rest) := by
  unfold receive
  by_cases h0 : buf.length = 0
  · have : buf = [] := List.length_eq_zero.mp h0
    subst this
    simp
  · have hpos : ¬ ((buf.length : Int) ≤ 0) := by omega
    simp only [hpos, if_false, Int.toNat_ofNat, List.length_append]
    simp

theorem receive_header (n : Nat) (rest : List Nat) :
    receive (htonl n ++ rest) 4 = some (htonl n, rest) :=
  receive_append (htonl n) rest

theorem to_int_small (n : Nat) (h : n < 2147483648) : to_int n = (n : Int) := by
  simp [to_int, h]

theorem client_receive_frame (s : String) (rest : List Nat)
    (hnul : Char.ofNat 0 ∉ s.toList) (hlen : s.length < 2147483648) :
    client_receive (send_frame (str_bytes s) ++ rest) = some (str_bytes s, rest) := by
  rw [send_frame_str s hnul (by omega), List.append_assoc]
  unfold client_receive
  rw [receive_header]
  simp only [ntohl_htonl _ (show s.length < 4294967296 by omega), to_int_small _ hlen]
  have hneg : ¬ ((s.length : Int) < 0) := by omega
  simp only [hneg, if_false]
  rw [← str_bytes_length s]
  exact receive_append _ _

theorem server_receive_frame (s : String) (rest : List Nat)
    (hnul : Char.ofNat 0 ∉ s.toList) (hlen : s.length ≤ 49) :
    server_receive (send_frame (str_bytes s) ++ rest) = some (str_bytes s, rest) := by
  rw [send_frame_str s hnul (by omega), List.append_assoc]
  unfold server_receive
  rw [receive_header]
  simp only [ntohl_htonl _ (show s.length < 4294967296 by omega),
    to_int_small _ (show s.length < 2147483648 by omega)]
  have hok : ¬ ((s.length : Int) < 0 ∨ 49 < (s.length : Int)) := by omega
  simp only [hok, if_false]
  rw [← str_bytes_length s]
  exact receive_append _ _

/-! ## The command parser -/

theorem span_append {p : Char → Bool} (l1 l2 : List Char) (h1 : ∀ c ∈ l1, p c = true)
    (h2 : ∀ c, l2.head? = some c → p c = false) :
    (l1 ++ l2).takeWhile p = l1 ∧ (l1 ++ l2).dropWhile p = l2 := by
  have ht : l2.takeWhile p = [] ∧ l2.dropWhile p = l2 := by
    cases l2 with
    | nil => simp
    | cons c cs =>
      have := h2 c rfl
      simp [this]
  rw [List.takeWhile_append_of_pos h1, List.dropWhile_append_of_pos h1, ht.1, ht.2]
  simp

theorem isdigit_not_space {c : Char} (h : isdigit c = true) : isspace c = false := by
  by_contra hs
  simp only [Bool.not_eq_false] at hs
  simp only [isspace, Bool.or_eq_true, decide_eq_true_eq] at hs
  rcases hs with ((((rfl | rfl) | rfl) | rfl) | rfl) | rfl <;> revert h <;> decide

theorem isdigit_not_sign {c : Char} (h : isdigit c = true) : c ≠ '-' ∧ c ≠ '+' := by
  constructor <;> (intro hc; subst hc; revert h; decide)

theorem skip_sign_spec (s : List Char) :
    ∃ sgn, (sgn = [] ∨ sgn = ['+'] ∨ sgn = ['-']) ∧ s = sgn ++ (skip_sign s).2 ∧
      ((skip_sign s).1 = true ↔ sgn = ['-']) := by
  unfold skip_sign
  split
  · exact ⟨['-'], by simp, by simp, by simp⟩
  · exact ⟨['+'], by simp, by simp, by simp⟩
  · exact ⟨[], by simp, by simp, by simp⟩

theorem skip_sign_digit (c : Char) (cs : List Char) (h : isdigit c = true) :
    skip_sign (c :: cs) = (false, c :: cs) := by
  have hs := isdigit_not_sign h
  unfold skip_sign
  split
  · rename_i heq
    simp only [List.cons.injEq] at heq
    exact absurd heq.1 hs.1
  · rename_i heq
    simp only [List.cons.injEq] at heq
    exact absurd heq.1 hs.2
  · rfl

theorem scan_int_shape (ws sgn ds tail : List Char) (hws : ∀ c ∈ ws, isspace c = true)
    (hsgn : sgn = [] ∨ sgn = ['+'] ∨ sgn = ['-']) (hds : ds ≠ [])
    (hdig : ∀ c ∈ ds, isdigit c = true)
    (htail : ∀ c, tail.head? = some c → isdigit c = false) :
    scan_int (ws ++ (sgn ++ (ds ++ tail)))
      = some (if sgn = ['-'] then -(digits_value ds : Int) else (digits_value ds : Int),
          tail) := by
  obtain ⟨d, ds1, rfl⟩ := List.exists_cons_of_ne_nil hds
  have hd : isdigit d = true := hdig d (List.mem_cons_self _ _)
  have hhead : ∀ c, (sgn ++ (d :: ds1 ++ tail)).head? = some c → isspace c = false := by
    intro c hc
    rcases hsgn with rfl | rfl | rfl
    · simp only [List.nil_append, List.cons_append, List.head?_cons, Option.some.injEq] at hc
      rw [← hc]; exact isdigit_not_space hd
    · simp only [List.cons_append, List.nil_append, List.head?_cons, Option.some.injEq] at hc
      rw [← hc]; decide
    · simp only [List.cons_append, List.nil_append, List.head?_cons, Option.some.injEq] at hc
      rw [← hc]; decide
  have hsign : skip_sign (sgn ++ (d :: ds1 ++ tail))
      = (decide (sgn = ['-']), d :: ds1 ++ tail) := by
    rcases hsgn with rfl | rfl | rfl
    · simpa using skip_sign_digit d (ds1 ++ tail) hd
    · rfl
    · rfl
  have hspan := span_append (d :: ds1) tail hdig htail
  unfold scan_int
  simp only [(span_append ws _ hws hhead).2, hsign, hspan.1, hspan.2]
  simp

theorem scan_word_shape (ws2 name rest : List Char) (hws2 : ∀ c ∈ ws2, isspace c = true)
    (hname : name ≠ []) (hchars : ∀ c ∈ name, isspace c = false)
    (hrest : ∀ c, rest.head? = some c → isspace c = true) :
    scan_word (ws2 ++ (name ++ rest)) = name := by
  obtain ⟨n, ns, rfl⟩ := List.exists_cons_of_ne_nil hname
  have hhead : ∀ c, (n :: ns ++ rest).head? = some c → isspace c = false := by
    intro c hc
    simp only [List.cons_append, List.head?_cons, Option.some.injEq] at hc
    rw [← hc]; exact hchars n (List.mem_cons_self _ _)
  unfold scan_word
  rw [(span_append ws2 _ hws2 hhead).2]
  exact (span_append (p := fun c => !isspace c) (n :: ns) rest
    (fun c hc => by simp [hchars c hc]) (fun c hc => by simp [hrest c hc])).1

theorem scan_int_some {s : List Char} {v : Int} {rest0 : List Char}
    (h : scan_int s = some (v, rest0)) :
    ∃ ws sgn ds : List Char, s = ws ++ (sgn ++ (ds ++ rest0)) ∧
      (∀ c ∈ ws, isspace c = true) ∧ (sgn = [] ∨ sgn = ['+'] ∨ sgn = ['-']) ∧ ds ≠ [] ∧
      (∀ c ∈ ds, isdigit c = true) ∧ (∀ c, rest0.head? = some c → isdigit c = false) ∧
      v = if sgn = ['-'] then -(digits_value ds : Int) else (digits_value ds : Int) := by
  unfold scan_int at h
  simp only at h
  by_cases hds : List.takeWhile isdigit (skip_sign (List.dropWhile isspace s)).2 = []
  · rw [if_pos hds] at h
    simp at h
  rw [if_neg hds] at h
  simp only [Option.some.injEq, Prod.mk.injEq] at h
  obtain ⟨hv, hrest⟩ := h
  obtain ⟨sgn, hsgn, hsplit, hneg⟩ := skip_sign_spec (s.dropWhile isspace)
  refine ⟨s.takeWhile isspace, sgn,
    (skip_sign (s.dropWhile isspace)).2.takeWhile isdigit, ?_, ?_, hsgn, hds, ?_, ?_, ?_⟩
  · rw [← hrest, List.takeWhile_append_dropWhile, ← hsplit, List.takeWhile_append_dropWhile]
  · exact fun c hc => List.mem_takeWhile_imp hc
  · exact fun c hc => List.mem_takeWhile_imp hc
  · intro c hc
    rw [← hrest] at hc
    have := List.head?_dropWhile_not isdigit (skip_sign (s.dropWhile isspace)).2
    rw [hc] at this
    simpa using this
  · rw [← hv]
    by_cases hb : (skip_sign (s.dropWhile isspace)).1 = true
    · simp [hb, hneg.mp hb]
    · have : ¬ sgn = ['-'] := fun hc => hb (hneg.mpr hc)
      simp [hb, this]

theorem scan_word_split (r : List Char) :
    ∃ ws2 rest : List Char, r = ws2 ++ (scan_word r ++ rest) ∧
      (∀ c ∈ ws2, isspace c = true) ∧ (∀ c ∈ scan_word r, isspace c = false) ∧
      (∀ c, rest.head? = some c → isspace c = true) := by
  refine ⟨r.takeWhile isspace, (r.dropWhile isspace).dropWhile (fun c => !isspace c),
    ?_, ?_, ?_, ?_⟩
  · unfold scan_word
    rw [List.takeWhile_append_dropWhile, List.takeWhile_append_dropWhile]
  · exact fun c hc => List.mem_takeWhile_imp hc
  · intro c hc
    have := List.mem_takeWhile_imp hc
    simpa using this
  · intro c hc
    have := List.head?_dropWhile_not (fun c => !isspace c) (r.dropWhile isspace)
    rw [hc] at this
    simpa using this

theorem sscanf_assigned_iff (command : List Char) (action : Int) (name : String) :
    sscanf_d_s command = ScanResult.assigned action name ↔
      CommandShape command action name.toList ∧ -2147483648 ≤ action ∧
        action ≤ 2147483647 ∧ name.length ≤ 19 := by
  constructor
  · intro h
    obtain ⟨rest0, hint, hname, hne, hlen, hlo, hhi⟩ := sscanf_assigned h
    obtain ⟨ws, sgn, ds, hcmd, hws, hsgn, hds, hdig, hhead, hv⟩ := scan_int_some hint
    obtain ⟨ws2, rest, hr, hws2, hchars, hrest⟩ := scan_word_split rest0
    subst hname
    refine ⟨⟨ws, sgn, ds, ws2, rest, ?_, hws, hsgn, hds, hdig, hws2, hne, hchars, ?_, hrest,
      hv⟩, hlo, hhi, hlen⟩
    · rw [hcmd]
      congr 3
    · intro hnil c hc
      apply hhead c
      rw [hr, hnil]
      cases hw : scan_word rest0 with
      | nil => exact absurd hw hne
      | cons n ns =>
        have hc2 : (String.mk (scan_word rest0)).toList.head? = some c := hc
        simp only [String.toList, hw, List.head?_cons] at hc2
        simpa using hc2
  · rintro ⟨⟨ws, sgn, ds, ws2, rest, hcmd, hws, hsgn, hds, hdig, hws2, hne, hchars, hhead,
      hrest, hv⟩, hlo, hhi, hlen⟩
    have htail : ∀ c, (ws2 ++ (name.toList ++ rest)).head? = some c → isdigit c = false := by
      intro c hc
      cases ws2 with
      | nil =>
        obtain ⟨n, ns, hn⟩ := List.exists_cons_of_ne_nil hne
        rw [hn] at hc
        exact hhead rfl c (by rw [hn]; simpa using hc)
      | cons w wsr =>
        simp only [List.cons_append, List.head?_cons, Option.some.injEq] at hc
        have hw := hws2 w (List.mem_cons_self _ _)
        by_contra hd
        simp only [Bool.not_eq_false] at hd
        rw [← hc] at hd
        rw [isdigit_not_space hd] at hw
        exact Bool.false_ne_true hw
    have hint := scan_int_shape ws sgn ds _ hws hsgn hds hdig htail
    have hword := scan_word_shape ws2 name.toList rest hws2 hne hchars hrest
    unfold sscanf_d_s
    rw [hcmd, hint]
    simp only [← hv, hword]
    have hrange : ¬ (action < -2147483648 ∨ 2147483647 < action) := by omega
    have hl : ¬ (19 < name.toList.length) := by
      have : name.toList.length = name.length := rfl
      omega
    simp only [hrange, if_false, hne, hl]
    cases name
    rfl

theorem sscanf_mismatch_iff (command : List Char) :
    sscanf_d_s command = ScanResult.mismatch ↔
      scan_int command = none ∨
        ∃ v rest, scan_int command = some (v, rest) ∧ -2147483648 ≤ v ∧ v ≤ 2147483647 ∧
          scan_word rest = [] := by
  unfold sscanf_d_s
  split
  · rename_i h
    simp [h]
  · rename_i v rest h
    constructor
    · intro hm
      split_ifs at hm with h1 h2
      exact Or.inr ⟨v, rest, h, by omega, by omega, h2⟩
    · intro hm
      rcases hm with hm | ⟨v1, rest1, heq, hlo, hhi, hw⟩
      · rw [h] at hm
        simp at hm
      · rw [h] at heq
        simp only [Option.some.injEq, Prod.mk.injEq] at heq
        obtain ⟨rfl, rfl⟩ := heq
        have h1 : ¬ (v < -2147483648 ∨ 2147483647 < v) := by omega
        simp [h1, hw]

/-- C7 (amended): `sscanf(command, "%d %s", ...)` yields `{action, name}` exactly when the
command has the shape `CommandShape`: optional white space, an optionally signed run
of digits of value `action` (within `int`), optional white space and a non-empty run
`name` of at most 19 non-blank characters, followed by nothing or by white space and
anything else. It reports a mismatch exactly when no integer can be read or nothing
but white space follows the integer, and then the reply is
`[SERVER]: Invalid command format`, the task table staying as it is. -/
theorem sscanf_accepts_iff (command : String) :
    (∀ (action : Int) (name : String),
      sscanf_d_s (c_string command) = ScanResult.assigned action name ↔
        CommandShape (c_string command) action name.toList ∧ -2147483648 ≤ action ∧
          action ≤ 2147483647 ∧ name.length ≤ 19) ∧
    (sscanf_d_s (c_string command) = ScanResult.mismatch ↔
      scan_int (c_string command) = none ∨
        ∃ v rest, scan_int (c_string command) = some (v, rest) ∧ -2147483648 ≤ v ∧
          v ≤ 2147483647 ∧ scan_word rest = []) ∧
    (sscanf_d_s (c_string command) = ScanResult.mismatch →
      ∀ (fuel : Nat) (predefined_tasks : List TaskConfig) (task_list : List Task)
        (response : String),
        handle_command fuel predefined_tasks task_list response command
          = some (task_list, "[SERVER]: Invalid command format")) := by
  refine ⟨fun action name => sscanf_assigned_iff _ action name, sscanf_mismatch_iff _, ?_⟩
  intro hm fuel cat tl response
  simp only [handle_command, hm]
  rw [snprintf_eq_self _ (by decide)]

/-- C7 witness: the two-token command `1 taskA` has the shape, and the one-token
command `7` does not parse. -/
theorem sscanf_accepts_iff_witness :
    (CommandShape (c_string "1 taskA") 1 "taskA".toList ∧ (-2147483648 : Int) ≤ 1 ∧
      (1 : Int) ≤ 2147483647 ∧ "taskA".length ≤ 19) ∧
    sscanf_d_s (c_string "7") = ScanResult.mismatch ∧
    handle_command 2 catalog_S2 initial_task_list "" "7"
      = some (initial_task_list, "[SERVER]: Invalid command format") :=
  ⟨((sscanf_accepts_iff "1 taskA").1 1 "taskA").mp (by decide!), by decide!,
    (sscanf_accepts_iff "7").2.2 (by decide!) 2 catalog_S2 initial_task_list ""⟩

/-- C7 (as stated) fails: the three-token command `1 A B` and the one-token command `1A`
are both parsed as `{1, A}`, and `1 A B` is answered with `Task A activated`; a name of
20 characters is not reported as a parse error either. -/
theorem sscanf_accepts_three_tokens :
    sscanf_d_s (c_string "1 A B") = ScanResult.assigned 1 "A" ∧
    (handle_command 5 catalog_S2 initial_task_list "" "1 A B").map (fun r => r.2)
      = some "[SERVER]: Task A activated" ∧
    sscanf_d_s (c_string "1A") = ScanResult.assigned 1 "A" ∧
    sscanf_d_s (c_string "1 ABCDEFGHIJKLMNOPQRST") = ScanResult.undefined := by
  decide!

/-! ## Replies on the wire -/

theorem c_string_no_nul (buf : String) : Char.ofNat 0 ∉ c_string buf := by
  intro h
  have := List.mem_takeWhile_imp h
  simp at this

theorem sscanf_name_no_nul {command : String} {action : Int} {name : String}
    (h : sscanf_d_s (c_string command) = ScanResult.assigned action name) :
    Char.ofNat 0 ∉ name.toList := by
  obtain ⟨⟨ws, sgn, ds, ws2, rest, hcmd, _⟩, _⟩ := (sscanf_assigned_iff _ _ _).mp h
  intro hn
  apply c_string_no_nul command
  rw [hcmd]
  have hn2 : Char.ofNat 0 ∈ name.data := hn
  simp [hn2]

theorem snprintf_c_string (text : String) (h : Char.ofNat 0 ∉ text.toList) :
    (snprintf 256 text).length ≤ 255 ∧ Char.ofNat 0 ∉ (snprintf 256 text).toList := by
  unfold snprintf
  constructor
  · show (text.toList.take 255).length ≤ 255
    simp
  · show Char.ofNat 0 ∉ text.toList.take 255
    exact fun hm => h (List.mem_of_mem_take hm)

theorem handle_command_reply_c_string {fuel : Nat} {predefined_tasks : List TaskConfig}
    {task_list task_list1 : List Task} {response command reply : String}
    (h : handle_command fuel predefined_tasks task_list response command
      = some (task_list1, reply)) :
    reply.length ≤ 255 ∧ Char.ofNat 0 ∉ reply.toList := by
  unfold handle_command at h
  split at h
  · simp at h
  · simp only [Option.some.injEq, Prod.mk.injEq] at h
    rw [← h.2]
    exact snprintf_c_string _ (by decide)
  · rename_i action name hscan
    have hname := sscanf_name_no_nul hscan
    have hfmt : ∀ pre post : String, Char.ofNat 0 ∉ pre.toList → Char.ofNat 0 ∉ post.toList →
        Char.ofNat 0 ∉ (pre ++ name ++ post).toList := by
      intro pre post h1 h2
      simp only [String.toList, String.data_append, List.mem_append, not_or]
      exact ⟨⟨h1, hname⟩, h2⟩
    have hfmt2 : ∀ pre : String, Char.ofNat 0 ∉ pre.toList →
        Char.ofNat 0 ∉ (pre ++ name).toList := by
      intro pre h1
      simp only [String.toList, String.data_append, List.mem_append, not_or]
      exact ⟨h1, hname⟩
    split_ifs at h with h1 h0
    · split at h
      · simp at h
      · simp at h
      · rename_i status tl2 hact
        have hst := (activate_task_status fuel _ _ _ status tl2 hact).1
        split_ifs at h with s1 s2 s3 s4
        · simp only [Option.some.injEq, Prod.mk.injEq] at h
          rw [← h.2]
          exact snprintf_c_string _ (hfmt _ _ (by decide) (by decide))
        · simp only [Option.some.injEq, Prod.mk.injEq] at h
          rw [← h.2]
          exact snprintf_c_string _ (hfmt _ _ (by decide) (by decide))
        · simp only [Option.some.injEq, Prod.mk.injEq] at h
          rw [← h.2]
          exact snprintf_c_string _ (hfmt _ _ (by decide) (by decide))
        · simp only [Option.some.injEq, Prod.mk.injEq] at h
          rw [← h.2]
          exact snprintf_c_string _ (hfmt2 _ (by decide))
        · omega
    · simp only [Option.some.injEq, Prod.mk.injEq] at h
      rw [← h.2]
      exact snprintf_c_string _ (hfmt _ _ (by decide) (by decide))
    · simp only [Option.some.injEq, Prod.mk.injEq] at h
      rw [← h.2]
      exact snprintf_c_string _ (by decide)

/-- C8: framing is invertible. The send path (four bytes of `htonl(strlen)`, most
significant first, then the bytes of the string) followed by the receive path of the
client (`receive` 4 bytes, `ntohl`, `receive` that many bytes) gives back every C
string `s` shorter than 2^31 and leaves the stream after its `4 + |s|` bytes; every
reply of `handle_command` is such a string, of at most 255 bytes; and the receive path
of the server gives back every request of at most 49 bytes, which one turn of
`handleConnection` answers with the framed reply. -/
theorem framing_roundtrip (s : String) (rest : List Nat) (hnul : Char.ofNat 0 ∉ s.toList) :
    (s.length < 2147483648 →
      send_frame (str_bytes s) = htonl s.length ++ str_bytes s ∧
      (send_frame (str_bytes s)).length = 4 + s.length ∧
      (client_receive (send_frame (str_bytes s) ++ rest)).map
          (fun r => (bytes_str r.1, r.2)) = some (s, rest)) ∧
    (∀ (fuel : Nat) (predefined_tasks : List TaskConfig) (task_list task_list1 : List Task)
        (response command : String),
      handle_command fuel predefined_tasks task_list response command = some (task_list1, s) →
      s.length ≤ 255 ∧
      (client_receive (send_frame (str_bytes s) ++ rest)).map
          (fun r => (bytes_str r.1, r.2)) = some (s, rest)) ∧
    (s.length ≤ 49 →
      (send_frame (str_bytes s)).length = 4 + s.length ∧
      (server_receive (send_frame (str_bytes s) ++ rest)).map
          (fun r => (bytes_str r.1, r.2)) = some (s, rest) ∧
      ∀ (fuel : Nat) (predefined_tasks : List TaskConfig) (task_list task_list1 : List Task)
          (response reply : String),
        handle_command fuel predefined_tasks task_list response s
          = some (task_list1, reply) →
        handleConnection_turn fuel predefined_tasks task_list response
            (send_frame (str_bytes s) ++ rest)
          = some (task_list1, reply, send_frame (str_bytes reply), rest)) := by
  have hlenframe : s.length < 4294967296 →
      (send_frame (str_bytes s)).length = 4 + s.length := by
    intro hlt
    rw [send_frame_str s hnul hlt, List.length_append, htonl_length, str_bytes_length]
  refine ⟨fun hlen => ⟨send_frame_str s hnul (by omega), hlenframe (by omega), ?_⟩,
    fun fuel cat tl tl1 response command h => ?_, fun hlen => ⟨hlenframe (by omega), ?_, ?_⟩⟩
  · rw [client_receive_frame s rest hnul hlen]
    simp [bytes_str_bytes]
  · have hlen := (handle_command_reply_c_string h).1
    refine ⟨hlen, ?_⟩
    rw [client_receive_frame s rest hnul (by omega)]
    simp [bytes_str_bytes]
  · rw [server_receive_frame s rest hnul hlen]
    simp [bytes_str_bytes]
  · intro fuel cat tl tl1 response reply h
    unfold handleConnection_turn
    rw [server_receive_frame s rest hnul hlen]
    simp only [bytes_str_bytes, h]

/-- C8 witness: the reply `[SERVER]: Task A activated` and the request `1 taskA`. -/
theorem framing_roundtrip_witness :
    (send_frame (str_bytes "[SERVER]: Task A activated")
        = htonl 26 ++ str_bytes "[SERVER]: Task A activated" ∧
      (send_frame (str_bytes "[SERVER]: Task A activated")).length = 4 + 26 ∧
      (client_receive (send_frame (str_bytes "[SERVER]: Task A activated") ++ [0, 0, 0, 1])).map
          (fun r => (bytes_str r.1, r.2)) = some ("[SERVER]: Task A activated", [0, 0, 0, 1])) ∧
    ((send_frame (str_bytes "1 taskA")).length = 4 + 7 ∧
      (server_receive (send_frame (str_bytes "1 taskA") ++ [0, 0, 0, 1])).map
          (fun r => (bytes_str r.1, r.2)) = some ("1 taskA", [0, 0, 0, 1])) :=
  ⟨(framing_roundtrip "[SERVER]: Task A activated" [0, 0, 0, 1] (by decide)).1 (by decide),
    ((framing_roundtrip "1 taskA" [0, 0, 0, 1] (by decide)).2.2 (by decide)).1,
    ((framing_roundtrip "1 taskA" [0, 0, 0, 1] (by decide)).2.2 (by decide)).2.1⟩

/-! ## The sleeps of `task_runner` -/

/-- C9: for `sleep_time = 150.5` ms the `timespec` built at lines 122-124 is 0 s and
500000 ns, a sleep of 0.5 ms and not of 150.5 ms, and for `sleep_time = 150` ms it is
0 s and 0 ns: `tv_nsec` holds the fraction of a millisecond, the whole milliseconds
below one second are lost. The `timespec` built at lines 97-99 from the same value,
with `fmod(·, 1000)`, is 0 s and 150500000 ns, which is 150.5 ms. On an ideal clock
the task `A 50 200 200` alone is therefore released at 0, 50, 100 and 150 ms, not
every 200 ms. -/
theorem sleep_ts_loses_milliseconds :
    sleep_ts (301 / 2) = (0, 500000) ∧ timespec_ms (sleep_ts (301 / 2)) = 1 / 2 ∧
    sleep_ts 150 = (0, 0) ∧ timespec_ms (sleep_ts 150) = 0 ∧
    exec_time_ts (301 / 2) = (0, 150500000) ∧
    timespec_ms (exec_time_ts (301 / 2)) = 301 / 2 ∧
    release_times ⟨"A", 50, 200, 200⟩ 4 (0, 0) = [0, 50, 100, 150] := by
  decide!

end Scheduler
